import Mathlib

/-!
Verification of the virtualization / LRU-recycling engine of the photo-archive
web frontend.

The development shallowly embeds two source files:

* `websrc/util/Cache.ts` — the `Lru` class.  JavaScript heap objects
  (`CacheNode`s) are modelled as an arena (`nodes : List (CacheNode K V)`);
  an object reference is the node's index in the arena, a `null`able
  reference is an `Option Nat`.  The ES `Map<K, CacheNode>` is modelled as an
  association list from keys to node indices (`nodeMap`); ES maps hold at most
  one entry per key, which the `mapSet`/`mapDelete` operations below preserve.
* `websrc/components/VirtualGrid.ts` — geometry computation and the
  materialization pass.  JavaScript numbers are modelled by `JsNum`
  (NaN / +Infinity / -Infinity / finite), with finite arithmetic exact over ℚ;
  the DOM-styling statements (absolute positioning of cells, the sizer
  element) have no influence on any modelled observable and are omitted.

In the TypeScript source, statements such as `(node.newer as CacheNode).older
= null` crash with a TypeError when the dereferenced field is `null`; those
situations are unreachable from states satisfying the cache invariant, and the
embedding models them as no-ops (each such spot is marked by a comment).
-/

set_option maxHeartbeats 1000000
set_option maxRecDepth 100000

namespace PhotoArchive

/- Batteries marks rational arithmetic `@[irreducible]`, which would keep the
kernel-checked evaluations below (all on small concrete rationals) from
reducing; restore the ordinary reducibility for this file. -/
attribute [local semireducible] Rat.add Rat.mul Rat.sub Rat.inv

/-! ### The ES `Map<K, CacheNode>` as an association list of node indices -/

def mapGet {K : Type} [DecidableEq K] : List (K × Nat) → K → Option Nat
  | [], _ => none
  | (k2, i) :: rest, k => if k2 = k then some i else mapGet rest k

def mapSet {K : Type} [DecidableEq K] : List (K × Nat) → K → Nat → List (K × Nat)
  | [], k, i => [(k, i)]
  | (k2, i2) :: rest, k, i => if k2 = k then (k, i) :: rest else (k2, i2) :: mapSet rest k i

def mapDelete {K : Type} [DecidableEq K] : List (K × Nat) → K → List (K × Nat)
  | [], _ => []
  | (k2, i2) :: rest, k => if k2 = k then rest else (k2, i2) :: mapDelete rest k

/-! ### The `Lru` class (`websrc/util/Cache.ts`) -/

/-- `class CacheNode<K, V>`: doubly linked list node owned by the cache. -/
structure CacheNode (K V : Type) where
  newer : Option Nat := none
  older : Option Nat := none
  key : K
  value : V
deriving DecidableEq

/-- `class Evicted<K, V>`: record returned by `Lru.evict`. -/
structure Evicted (K V : Type) where
  key : K
  value : V
deriving DecidableEq

/-- `class Lru<K, V>`: the map plus the `newest`/`oldest` endpoints of the
intrusive recency list.  `nodes` is the arena of all `CacheNode` objects ever
allocated; indices into it play the role of object references. -/
structure Lru (K V : Type) where
  nodes : List (CacheNode K V)
  nodeMap : List (K × Nat)
  newest : Option Nat
  oldest : Option Nat
deriving DecidableEq

variable {K V : Type} [DecidableEq K] [Inhabited K] [Inhabited V]

/-- The `Lru` constructor: empty map, both endpoints null. -/
def Lru.empty : Lru K V := ⟨[], [], none, none⟩

/-- Dereference a node reference (total: out-of-arena indices, which never
occur in reachable states, yield a junk node). -/
def nodeAt (s : Lru K V) (i : Nat) : CacheNode K V :=
  (s.nodes[i]?).getD { newer := none, older := none, key := default, value := default }

/-- `ref.newer = v` for the node referenced by `j`. -/
def updNewer (s : Lru K V) (j : Nat) (v : Option Nat) : Lru K V :=
  match s.nodes[j]? with
  | some n => { s with nodes := s.nodes.set j { n with newer := v } }
  | none => s

/-- `ref.older = v` for the node referenced by `j`. -/
def updOlder (s : Lru K V) (j : Nat) (v : Option Nat) : Lru K V :=
  match s.nodes[j]? with
  | some n => { s with nodes := s.nodes.set j { n with older := v } }
  | none => s

/-- The state change of one iteration of `Lru.evict`'s `while` loop, for the
node `oid` currently referenced by `oldest`:

* `this.oldest = this.oldest.newer;`
* `if (this.oldest != null) { this.oldest.older = null; }`
* `this.nodeMap.delete(key);`

Note the loop never updates `this.newest`, even when it removes the last
remaining node. -/
def evictTail (s : Lru K V) (oid : Nat) : Lru K V :=
  let s1 : Lru K V := { s with oldest := (nodeAt s oid).newer }
  let s2 := match (nodeAt s oid).newer with
            | some nid => updOlder s1 nid none
            | none => s1
  { s2 with nodeMap := mapDelete s2.nodeMap (nodeAt s oid).key }

/-- One iteration of `Lru.evict`'s `while` loop (recording the pushed
`Evicted` value and counting `count` down), then the remaining iterations;
the loop stops early when `oldest` is null. -/
def evictLoop : Nat → Lru K V → List (Evicted K V) × Lru K V
  | 0, s => ([], s)
  | count + 1, s =>
    match s.oldest with
    | none => ([], s)
    | some oid =>
      match s.nodes[oid]? with
      | none => ([], s)  -- unreachable: `oldest` always references an arena node
      | some onode =>
        let r := evictLoop count (evictTail s oid)
        (⟨onode.key, onode.value⟩ :: r.1, r.2)

/-- `Lru.evict(count)`. -/
def Lru.evict (s : Lru K V) (count : Nat) : List (Evicted K V) × Lru K V :=
  evictLoop count s

/-- `Lru.insert(key, value)`. -/
def Lru.insert (s : Lru K V) (key : K) (value : V) : Lru K V :=
  match s.newest with
  | none =>
    -- cache is empty
    { nodes := s.nodes ++ [{ newer := none, older := none, key := key, value := value }],
      nodeMap := mapSet s.nodeMap key s.nodes.length,
      newest := some s.nodes.length,
      oldest := some s.nodes.length }
  | some w =>
    -- node.older = this.newest; this.newest.newer = node; this.newest = node;
    -- this.nodeMap.set(key, node);
    let nid := s.nodes.length
    let s1 : Lru K V :=
      { s with nodes := s.nodes ++ [{ newer := none, older := some w, key := key, value := value }] }
    let s2 := updNewer s1 w (some nid)
    { s2 with nodeMap := mapSet s2.nodeMap key nid, newest := some nid }

/-- The `node == this.oldest` branch of `Lru.get`: unsplice the oldest node
and relink it at the newest end.  Statement-by-statement translation. -/
def promoteOldest (s : Lru K V) (i : Nat) : Lru K V :=
  -- this.oldest = node.newer;
  let sA : Lru K V := { s with oldest := (nodeAt s i).newer }
  -- (node.newer as CacheNode<K,V>).older = null;   (TypeError if null: modelled as no-op)
  let sB := match (nodeAt sA i).newer with
            | some j => updOlder sA j none
            | none => sA
  -- node.older = this.newest;
  let sC := updOlder sB i sB.newest
  -- node.newer = null;
  let sD := updNewer sC i none
  -- (this.newest as CacheNode<K, V>).newer = node;   (TypeError if null: modelled as no-op)
  let sE := match sD.newest with
            | some w => updNewer sD w (some i)
            | none => sD
  -- this.newest = node;
  { sE with newest := some i }

/-- The middle branch of `Lru.get`: splice the node's neighbours together and
relink it at the newest end.  Statement-by-statement translation; every field
is re-read from the state current at that statement. -/
def promoteMiddle (s : Lru K V) (i : Nat) : Lru K V :=
  -- (node.older as CacheNode<K,V>).newer = node.newer;   (TypeError if null: no-op)
  let s1 := match (nodeAt s i).older with
            | some j => updNewer s j (nodeAt s i).newer
            | none => s
  -- (node.newer as CacheNode<K,V>).older = node.older;   (TypeError if null: no-op)
  let s2 := match (nodeAt s1 i).newer with
            | some j => updOlder s1 j (nodeAt s1 i).older
            | none => s1
  -- node.older = this.newest;
  let s3 := updOlder s2 i s2.newest
  -- node.newer = null;
  let s4 := updNewer s3 i none
  -- (this.newest as CacheNode<K, V>).newer = node;   (TypeError if null: no-op)
  let s5 := match s4.newest with
            | some w => updNewer s4 w (some i)
            | none => s4
  -- this.newest = node;
  { s5 with newest := some i }

/-- `Lru.get(key)`: returns the value (if present) and the successor state.
`node == this.newest` / `node == this.oldest` are reference comparisons,
i.e. comparisons of arena indices.  The returned `node.value` is read from
the entry state; no statement of the method writes a `value` field. -/
def Lru.get (s : Lru K V) (key : K) : Option V × Lru K V :=
  match mapGet s.nodeMap key with
  | none => (none, s)
  | some i =>
    if s.newest = some i then
      -- nothing to do
      (some (nodeAt s i).value, s)
    else if s.oldest = some i then
      (some (nodeAt s i).value, promoteOldest s i)
    else
      (some (nodeAt s i).value, promoteMiddle s i)

/-- `Lru.delete(key)`. -/
def Lru.delete (s : Lru K V) (key : K) : Lru K V :=
  match mapGet s.nodeMap key with
  | none => s
  | some i =>
    let s1 : Lru K V := { s with nodeMap := mapDelete s.nodeMap key }
    -- if (node.newer == null) { this.newest = node.older; } else { node.newer.older = node.older; }
    let s2 := match (nodeAt s1 i).newer with
              | none => { s1 with newest := (nodeAt s1 i).older }
              | some j => updOlder s1 j (nodeAt s1 i).older
    -- if (node.older == null) { this.oldest = node.newer; } else { node.older.newer = node.newer; }
    let s3 := match (nodeAt s2 i).older with
              | none => { s2 with oldest := (nodeAt s2 i).newer }
              | some j => updNewer s2 j (nodeAt s2 i).newer
    s3

/-- Newest-to-oldest traversal, bounded by fuel.  The source's `while` loop
follows `older` references; the fuel (always instantiated with the arena
size, an upper bound for any acyclic traversal) only makes the recursion
structural. -/
def traverseFrom (s : Lru K V) : Nat → Option Nat → List (K × V)
  | 0, _ => []
  | _ + 1, none => []
  | fuel + 1, some i =>
    match s.nodes[i]? with
    | none => []
    | some n => (n.key, n.value) :: traverseFrom s fuel n.older

/-- `Lru.forEach(f)`: the sequence of `(key, value)` pairs passed to `f`,
newest first. -/
def Lru.forEach (s : Lru K V) : List (K × V) :=
  traverseFrom s s.nodes.length s.newest

/-- `Lru.clear()`: drops the map and both endpoints.  The arena is kept (the
objects merely become unreachable). -/
def Lru.clear (s : Lru K V) : Lru K V :=
  { s with nodeMap := [], newest := none, oldest := none }

/-- Visit order of `Lru.verify`'s while loop, as node indices. -/
def traverseIds (s : Lru K V) : Nat → Option Nat → List Nat
  | 0, _ => []
  | _ + 1, none => []
  | fuel + 1, some i =>
    match s.nodes[i]? with
    | none => []
    | some n => i :: traverseIds s fuel n.older

/-- `Lru.verify()`: the debug assertion of the class (`// DEBUG:`-disabled at
every call site in the shipped revision).  Returns `false` iff the original
would throw (`oldest not oldest` or `wrong size`). -/
def Lru.verify (s : Lru K V) : Bool :=
  let visited := traverseIds s s.nodes.length s.newest
  (visited.all fun i =>
    match s.nodes[i]? with
    | some n => !(n.older = none) || s.oldest = some i
    | none => true) &&
  visited.length = s.nodeMap.length

/-- `Lru.size` getter: `this.nodeMap.size`. -/
def Lru.size (s : Lru K V) : Nat := s.nodeMap.length

/-! ### The recency-list invariant

`dseg s prev l next` says that the node indices in `l`, read newest-first,
form a doubly linked segment inside `s`: the first node's `newer` reference
is `prev`, each node's `older` reference is the next index of `l`, the last
node's `older` reference is `next`, and each node's `newer` reference is its
predecessor in `l` (or `prev` for the first). -/

/-- The head of `l` (as a reference), or `d` if `l` is empty. -/
def headOr : List Nat → Option Nat → Option Nat
  | [], d => d
  | a :: _, _ => some a

/-- The last element of `l` (as a reference), or `d` if `l` is empty. -/
def lastOr : List Nat → Option Nat → Option Nat
  | [], d => d
  | a :: t, _ => lastOr t (some a)

def dseg (s : Lru K V) : Option Nat → List Nat → Option Nat → Prop
  | _, [], _ => True
  | prev, i :: rest, next =>
    (nodeAt s i).newer = prev ∧ (nodeAt s i).older = headOr rest next ∧
      dseg s (some i) rest next

instance dsegDecidable (s : Lru K V) :
    (l : List Nat) → (prev next : Option Nat) → Decidable (dseg s prev l next)
  | [], _, _ => Decidable.isTrue trivial
  | i :: rest, prev, next =>
    have : Decidable (dseg s (some i) rest next) := dsegDecidable s rest (some i) next
    inferInstanceAs (Decidable (_ ∧ _ ∧ _))

/-- The representation invariant of `Lru`, with the newest-first index list
`ids` of the recency chain as a witness: the chain is a well-formed segment
delimited by `newest`/`oldest`, it has no duplicate nodes, all its nodes are
in the arena, the map's entries are exactly the chain's nodes keyed by their
`key` fields (one entry per key), and the map's size is the chain length. -/
@[reducible] def Abs (s : Lru K V) (ids : List Nat) : Prop :=
  dseg s none ids none ∧
  s.newest = headOr ids none ∧
  s.oldest = lastOr ids none ∧
  ids.Nodup ∧
  (∀ i ∈ ids, i < s.nodes.length) ∧
  (∀ p ∈ s.nodeMap, p.2 ∈ ids ∧ (nodeAt s p.2).key = p.1) ∧
  (∀ i ∈ ids, mapGet s.nodeMap ((nodeAt s i).key) = some i) ∧
  (s.nodeMap.map Prod.fst).Nodup ∧
  s.nodeMap.length = ids.length

/-! ### JavaScript numbers

`VirtualGrid` divides by attribute-controlled cell sizes without guarding
against zero, so the embedding needs the IEEE special values that JavaScript
division produces.  Finite values are carried exactly as rationals: every
arithmetic operation the grid performs on finite operands is modelled exactly
(the double-rounding of binary64 cannot change any of the `floor`/`ceil`/
comparison results appearing in the claims, which involve small integral
operands).  Negative zero is identified with zero; no grid computation
distinguishes them. -/

inductive JsNum where
  | nan : JsNum
  | inf : JsNum
  | ninf : JsNum
  | fin : ℚ → JsNum
deriving DecidableEq

namespace JsNum

/-- JavaScript `/`. -/
def div : JsNum → JsNum → JsNum
  | nan, _ => nan
  | _, nan => nan
  | inf, inf => nan
  | inf, ninf => nan
  | ninf, inf => nan
  | ninf, ninf => nan
  | inf, fin b => if b < 0 then ninf else inf
  | ninf, fin b => if b < 0 then inf else ninf
  | fin _, inf => fin 0
  | fin _, ninf => fin 0
  | fin a, fin b =>
    if b = 0 then (if a = 0 then nan else if a < 0 then ninf else inf)
    else fin (a / b)

/-- JavaScript `+` on numbers. -/
def add : JsNum → JsNum → JsNum
  | nan, _ => nan
  | _, nan => nan
  | inf, ninf => nan
  | ninf, inf => nan
  | inf, _ => inf
  | _, inf => inf
  | ninf, _ => ninf
  | _, ninf => ninf
  | fin a, fin b => fin (a + b)

/-- JavaScript `-` on numbers. -/
def sub : JsNum → JsNum → JsNum
  | nan, _ => nan
  | _, nan => nan
  | inf, inf => nan
  | ninf, ninf => nan
  | inf, _ => inf
  | ninf, _ => ninf
  | _, inf => ninf
  | _, ninf => inf
  | fin a, fin b => fin (a - b)

/-- JavaScript `*` on numbers. -/
def mul : JsNum → JsNum → JsNum
  | nan, _ => nan
  | _, nan => nan
  | inf, inf => inf
  | inf, ninf => ninf
  | ninf, inf => ninf
  | ninf, ninf => inf
  | inf, fin b => if b = 0 then nan else if b < 0 then ninf else inf
  | fin a, inf => if a = 0 then nan else if a < 0 then ninf else inf
  | ninf, fin b => if b = 0 then nan else if b < 0 then inf else ninf
  | fin a, ninf => if a = 0 then nan else if a < 0 then inf else ninf
  | fin a, fin b => fin (a * b)

/-- `Math.floor`. -/
def floor : JsNum → JsNum
  | nan => nan
  | inf => inf
  | ninf => ninf
  | fin a => fin (⌊a⌋ : ℤ)

/-- `Math.ceil`. -/
def ceil : JsNum → JsNum
  | nan => nan
  | inf => inf
  | ninf => ninf
  | fin a => fin (⌈a⌉ : ℤ)

/-- `Math.max` (two arguments): NaN-propagating. -/
def max : JsNum → JsNum → JsNum
  | nan, _ => nan
  | _, nan => nan
  | inf, _ => inf
  | _, inf => inf
  | ninf, b => b
  | a, ninf => a
  | fin a, fin b => fin (Max.max a b)

/-- `Math.min` (two arguments): NaN-propagating. -/
def min : JsNum → JsNum → JsNum
  | nan, _ => nan
  | _, nan => nan
  | ninf, _ => ninf
  | _, ninf => ninf
  | inf, b => b
  | a, inf => a
  | fin a, fin b => fin (Min.min a b)

/-- JavaScript `<`: false whenever an operand is NaN. -/
def ltB : JsNum → JsNum → Bool
  | nan, _ => false
  | _, nan => false
  | inf, _ => false
  | _, inf => true
  | ninf, ninf => false
  | ninf, _ => true
  | _, ninf => false
  | fin a, fin b => decide (a < b)

/-- JavaScript `<=`: false whenever an operand is NaN. -/
def leB : JsNum → JsNum → Bool
  | nan, _ => false
  | _, nan => false
  | ninf, _ => true
  | _, inf => true
  | inf, _ => false
  | _, ninf => false
  | fin a, fin b => decide (a ≤ b)

/-- The rational carried by a finite value (0 otherwise; only applied to
values known to be finite). -/
def toQ : JsNum → ℚ
  | fin a => a
  | _ => 0

end JsNum

/-! ### `VirtualGrid` (`websrc/components/VirtualGrid.ts`)

The component's state.  Host-surface interaction is recorded through
observables: `nextHandle` is the supply of fresh visual elements manufactured
by `renderer.createVirtualizedElement()` (each is identified by a number),
`appended` the elements appended to the viewport, `assignments` the sequence
of `assignVirtualizedElement(cell, itemIndex)` calls, `abandoned` the
sequence of `abandonVirtualizedElement` calls.  The renderer object itself is
identified by `rendererId` (the setter compares references).  The cached
attribute fields `_cellWidth`/`_cellHeight`/`_virtualElementCount` and the
host-reported metrics (`getBoundingClientRect`, `viewport.scrollTop`) are
always finite, so they are carried as plain rationals. -/

structure GridState where
  elementCache : Lru ℚ Nat
  visibleGridWidth : JsNum
  visibleGridHeight : JsNum
  gridRowCount : JsNum
  maximumCachedElementCount : JsNum
  cellWidth : ℚ
  cellHeight : ℚ
  virtualElementCount : ℚ
  viewportW : ℚ
  viewportH : ℚ
  scrollTop : ℚ
  rendererId : Nat
  nextHandle : Nat
  appended : List Nat
  assignments : List (Nat × ℚ)
  abandoned : List Nat
deriving DecidableEq

/-- `VirtualGrid.getCell()`: evict-and-reuse when over capacity, otherwise
manufacture a fresh element and append it to the viewport.  The source's
`evict(1)[0].value` crashes on an empty eviction result; that branch (only
reachable when `size > maximumCachedElementCount` holds with an empty cache,
which a materialization pass never produces) is modelled as handing out
element 0. -/
def getCell (st : GridState) : Nat × GridState :=
  if JsNum.ltB st.maximumCachedElementCount (JsNum.fin (st.elementCache.size : ℚ)) then
    -- reuse old one
    match st.elementCache.evict 1 with
    | (e :: _, c2) => (e.value, { st with elementCache := c2 })
    | ([], c2) => (0, { st with elementCache := c2 })
  else
    -- let elem = this.renderer.createVirtualizedElement(); this.viewport.appendChild(elem);
    let elem := st.nextHandle
    (elem, { st with nextHandle := st.nextHandle + 1, appended := st.appended ++ [elem] })

/-- The values taken by a counter that starts at `top` and increments by one
while `< bot` (the `for` loops of `virtualizeCells`).  A NaN bound yields no
iterations (every NaN comparison is false); `top` is never `-Infinity` at a
call site (both loops start from a `Math.max(0, _)` value or from 0), and
`bot` is never `+Infinity` there (see the claim proofs), so the remaining
constructor combinations — where the JavaScript loop would either not run or
never terminate — are uniformly modelled as no iterations. -/
def loopIters : JsNum → JsNum → List ℚ
  | JsNum.fin a, JsNum.fin b => (List.range (Int.toNat ⌈b - a⌉)).map (fun k => a + k)
  | _, _ => []

/-- `gridTop` of `virtualizeCells`:
`Math.max(0, Math.floor(scrollTop / cellHeight) - this.visibleGridHeight)`. -/
def windowTop (st : GridState) : JsNum :=
  JsNum.max (JsNum.fin 0)
    (JsNum.sub (JsNum.floor (JsNum.div (JsNum.fin st.scrollTop) (JsNum.fin st.cellHeight)))
      st.visibleGridHeight)

/-- `gridBottom` of `virtualizeCells`: `Math.min(this.gridRowCount,
Math.ceil(scrollBottom / cellHeight) + this.visibleGridHeight)` with
`scrollBottom = scrollTop + rect.height`. -/
def windowBottom (st : GridState) : JsNum :=
  JsNum.min st.gridRowCount
    (JsNum.add
      (JsNum.ceil (JsNum.div (JsNum.fin (st.scrollTop + st.viewportH)) (JsNum.fin st.cellHeight)))
      st.visibleGridHeight)

/-- The body of the nested materialization loops for one `itemIndex`:
look the index up in the cache (promoting it), and on a miss acquire a cell,
have the renderer populate it and insert it — all guarded by
`itemIndex < itemCount`.  Cell positioning is DOM styling and not modelled. -/
def cellStep (st : GridState) (itemIndex : ℚ) : GridState :=
  if itemIndex < st.virtualElementCount then
    match (st.elementCache.get itemIndex).1 with
    | some _ => { st with elementCache := (st.elementCache.get itemIndex).2 }
    | none =>
      let st1 : GridState := { st with elementCache := (st.elementCache.get itemIndex).2 }
      let acq := getCell st1
      let st2 : GridState :=
        { acq.2 with assignments := acq.2.assignments ++ [(acq.1, itemIndex)] }
      { st2 with elementCache := st2.elementCache.insert itemIndex acq.1 }
  else
    st

/-- The two nested `for` loops of `virtualizeCells`. -/
def passCells (ys xs : List ℚ) (vgw : ℚ) (st : GridState) : GridState :=
  ys.foldl (fun acc y => xs.foldl (fun acc2 x => cellStep acc2 (y * vgw + x)) acc) st

/-- `VirtualGrid.virtualizeCells(layoutChanged)`.  The trailing
`layoutChanged` branch repositions every cached cell via `forEach` without
touching any modelled observable (pure styling), so the parameter does not
influence the resulting state here. -/
def virtualizeCells (st : GridState) (layoutChanged : Bool) : GridState :=
  let ys := loopIters (windowTop st) (windowBottom st)
  let xs := loopIters (JsNum.fin 0) st.visibleGridWidth
  passCells ys xs (JsNum.toQ st.visibleGridWidth) st

/-- The geometry assignments at the head of `VirtualGrid.computeBounds`
(`viewportSizer.style.height` is styling and not modelled). -/
def setGeometry (st : GridState) : GridState :=
  let vgw := JsNum.max (JsNum.fin 1)
      (JsNum.floor (JsNum.div (JsNum.fin st.viewportW) (JsNum.fin st.cellWidth)))
  let vgh := JsNum.add
      (JsNum.floor (JsNum.div (JsNum.fin st.viewportH) (JsNum.fin st.cellHeight))) (JsNum.fin 2)
  let grc := JsNum.ceil (JsNum.div (JsNum.fin st.virtualElementCount) vgw)
  -- cache four "pages" worth of elements (source comment; the factor is 6)
  let mcec := JsNum.min (JsNum.fin st.virtualElementCount)
      (JsNum.mul vgw (JsNum.mul vgh (JsNum.fin 6)))
  { st with visibleGridWidth := vgw, visibleGridHeight := vgh,
            gridRowCount := grc, maximumCachedElementCount := mcec }

/-- `VirtualGrid.computeBounds()`. -/
def computeBounds (st : GridState) : GridState :=
  virtualizeCells (setGeometry st) true

/-- `VirtualGrid.invalidateAllItems(redraw)`: abandon every cached element
(newest-to-oldest `forEach` order), clear the cache, optionally redraw. -/
def invalidateAllItems (st : GridState) (redraw : Bool) : GridState :=
  let handles := st.elementCache.forEach.map Prod.snd
  let st1 : GridState :=
    { st with abandoned := st.abandoned ++ handles, elementCache := st.elementCache.clear }
  if redraw then virtualizeCells st1 false else st1

/-- The error raised by the `itemRenderer` setter. -/
inductive GridError where
  | invalidConfiguration : GridError
deriving DecidableEq

/-- The `itemRenderer` setter.  `none` stands for both `null` and
`undefined` (the source tests `renderer == null || renderer == undefined`).
A raised error is reported alongside the (unchanged) state. -/
def setItemRenderer (st : GridState) (renderer : Option Nat) : GridState × Option GridError :=
  match renderer with
  | none => (st, some GridError.invalidConfiguration)
  | some rid =>
    if rid = st.rendererId then (st, none)
    else
      let st1 := invalidateAllItems st false
      (virtualizeCells { st1 with rendererId := rid } false, none)

/-- The observed attributes of the element. -/
inductive GridAttr where
  | cellWidth : GridAttr
  | cellHeight : GridAttr
  | virtualElementCount : GridAttr
deriving DecidableEq

/-- `parseInt(value) || 0`: an unparsable attribute string (`parseInt`
returns NaN, modelled as `none`) coerces to 0, as does an explicit 0. -/
def parseIntOr0 (value : Option ℤ) : ℚ :=
  match value with
  | some n => (n : ℚ)
  | none => 0

/-- `VirtualGrid.attributeChangedCallback`. -/
def attributeChangedCallback (st : GridState) (name : GridAttr) (value : Option ℤ) : GridState :=
  computeBounds
    (match name with
     | GridAttr.cellWidth => { st with cellWidth := parseIntOr0 value }
     | GridAttr.cellHeight => { st with cellHeight := parseIntOr0 value }
     | GridAttr.virtualElementCount => { st with virtualElementCount := parseIntOr0 value })

/-! ### Concrete states used by the claims and their witnesses -/

/-- The component's state right after the constructor ran (every numeric
field initialized to 0, empty cache). -/
def gridInit : GridState :=
  { elementCache := Lru.empty, visibleGridWidth := JsNum.fin 0,
    visibleGridHeight := JsNum.fin 0, gridRowCount := JsNum.fin 0,
    maximumCachedElementCount := JsNum.fin 0,
    cellWidth := 0, cellHeight := 0, virtualElementCount := 0,
    viewportW := 0, viewportH := 0, scrollTop := 0,
    rendererId := 0, nextHandle := 0, appended := [], assignments := [], abandoned := [] }

/-- The end-to-end scenario configuration: viewport 1000 by 800, cells
320 by 240, 100 items, scrolled to the top. -/
def gridC2 : GridState :=
  { gridInit with viewportW := 1000, viewportH := 800, cellWidth := 320,
                  cellHeight := 240, virtualElementCount := 100 }

/-- A two-entry cache (keys 1 then 2 inserted into a fresh cache). -/
def lru2 : Lru ℕ ℕ := (Lru.empty.insert 1 10).insert 2 20

/-- A three-entry cache (keys 1, 2, 3 inserted into a fresh cache). -/
def lru3 : Lru ℕ ℕ := ((Lru.empty.insert 1 10).insert 2 20).insert 3 30

/-- A grid state holding one cached element while the capacity bound is 0:
the next acquisition must recycle. -/
def gridOver : GridState :=
  { gridInit with elementCache := Lru.empty.insert 5 77,
                  maximumCachedElementCount := JsNum.fin 0 }

/-! ## Lemmas -/

/-! ### Reference updates -/

section UpdLemmas

variable (s : Lru K V) (j : Nat) (v : Option Nat)

@[simp] theorem updNewer_nodeMap : (updNewer s j v).nodeMap = s.nodeMap := by
  unfold updNewer; cases s.nodes[j]? <;> rfl

@[simp] theorem updNewer_newest : (updNewer s j v).newest = s.newest := by
  unfold updNewer; cases s.nodes[j]? <;> rfl

@[simp] theorem updNewer_oldest : (updNewer s j v).oldest = s.oldest := by
  unfold updNewer; cases s.nodes[j]? <;> rfl

@[simp] theorem updNewer_length : (updNewer s j v).nodes.length = s.nodes.length := by
  unfold updNewer; cases s.nodes[j]? <;> simp

@[simp] theorem updOlder_nodeMap : (updOlder s j v).nodeMap = s.nodeMap := by
  unfold updOlder; cases s.nodes[j]? <;> rfl

@[simp] theorem updOlder_newest : (updOlder s j v).newest = s.newest := by
  unfold updOlder; cases s.nodes[j]? <;> rfl

@[simp] theorem updOlder_oldest : (updOlder s j v).oldest = s.oldest := by
  unfold updOlder; cases s.nodes[j]? <;> rfl

@[simp] theorem updOlder_length : (updOlder s j v).nodes.length = s.nodes.length := by
  unfold updOlder; cases s.nodes[j]? <;> simp

theorem getElem?_eq_nodeAt {i : Nat} (h : i < s.nodes.length) :
    s.nodes[i]? = some (nodeAt s i) := by
  rw [List.getElem?_eq_getElem h]
  rw [nodeAt, List.getElem?_eq_getElem h]
  rfl

theorem nodeAt_updNewer_self (h : j < s.nodes.length) :
    nodeAt (updNewer s j v) j = { nodeAt s j with newer := v } := by
  unfold updNewer
  rw [getElem?_eq_nodeAt s h]
  simp only [nodeAt]
  rw [List.getElem?_set_eq (by simpa using h)]
  rfl

theorem nodeAt_updNewer_ne {i : Nat} (h : i ≠ j) :
    nodeAt (updNewer s j v) i = nodeAt s i := by
  unfold updNewer
  cases h2 : s.nodes[j]? with
  | none => rfl
  | some n => simp only [nodeAt, List.getElem?_set_ne (Ne.symm h)]

theorem nodeAt_updOlder_self (h : j < s.nodes.length) :
    nodeAt (updOlder s j v) j = { nodeAt s j with older := v } := by
  unfold updOlder
  rw [getElem?_eq_nodeAt s h]
  simp only [nodeAt]
  rw [List.getElem?_set_eq (by simpa using h)]
  rfl

theorem nodeAt_updOlder_ne {i : Nat} (h : i ≠ j) :
    nodeAt (updOlder s j v) i = nodeAt s i := by
  unfold updOlder
  cases h2 : s.nodes[j]? with
  | none => rfl
  | some n => simp only [nodeAt, List.getElem?_set_ne (Ne.symm h)]

theorem updNewer_of_ge (h : s.nodes.length ≤ j) : updNewer s j v = s := by
  unfold updNewer
  rw [List.getElem?_eq_none h]

theorem updOlder_of_ge (h : s.nodes.length ≤ j) : updOlder s j v = s := by
  unfold updOlder
  rw [List.getElem?_eq_none h]

@[simp] theorem key_nodeAt_updNewer (i : Nat) :
    (nodeAt (updNewer s j v) i).key = (nodeAt s i).key := by
  by_cases hj : j < s.nodes.length
  · by_cases hij : i = j
    · rw [hij, nodeAt_updNewer_self s j v hj]
    · rw [nodeAt_updNewer_ne s j v hij]
  · rw [updNewer_of_ge s j v (le_of_not_lt hj)]

@[simp] theorem value_nodeAt_updNewer (i : Nat) :
    (nodeAt (updNewer s j v) i).value = (nodeAt s i).value := by
  by_cases hj : j < s.nodes.length
  · by_cases hij : i = j
    · rw [hij, nodeAt_updNewer_self s j v hj]
    · rw [nodeAt_updNewer_ne s j v hij]
  · rw [updNewer_of_ge s j v (le_of_not_lt hj)]

@[simp] theorem older_nodeAt_updNewer (i : Nat) :
    (nodeAt (updNewer s j v) i).older = (nodeAt s i).older := by
  by_cases hj : j < s.nodes.length
  · by_cases hij : i = j
    · rw [hij, nodeAt_updNewer_self s j v hj]
    · rw [nodeAt_updNewer_ne s j v hij]
  · rw [updNewer_of_ge s j v (le_of_not_lt hj)]

@[simp] theorem key_nodeAt_updOlder (i : Nat) :
    (nodeAt (updOlder s j v) i).key = (nodeAt s i).key := by
  by_cases hj : j < s.nodes.length
  · by_cases hij : i = j
    · rw [hij, nodeAt_updOlder_self s j v hj]
    · rw [nodeAt_updOlder_ne s j v hij]
  · rw [updOlder_of_ge s j v (le_of_not_lt hj)]

@[simp] theorem value_nodeAt_updOlder (i : Nat) :
    (nodeAt (updOlder s j v) i).value = (nodeAt s i).value := by
  by_cases hj : j < s.nodes.length
  · by_cases hij : i = j
    · rw [hij, nodeAt_updOlder_self s j v hj]
    · rw [nodeAt_updOlder_ne s j v hij]
  · rw [updOlder_of_ge s j v (le_of_not_lt hj)]

@[simp] theorem newer_nodeAt_updOlder (i : Nat) :
    (nodeAt (updOlder s j v) i).newer = (nodeAt s i).newer := by
  by_cases hj : j < s.nodes.length
  · by_cases hij : i = j
    · rw [hij, nodeAt_updOlder_self s j v hj]
    · rw [nodeAt_updOlder_ne s j v hij]
  · rw [updOlder_of_ge s j v (le_of_not_lt hj)]

end UpdLemmas


/-! ### Association-list map lemmas -/

section MapLemmas

variable {m : List (K × Nat)} {k k2 : K} {i : Nat} {p : K × Nat}

theorem mapGet_mem (h : mapGet m k = some i) : (k, i) ∈ m := by
  induction m with
  | nil => simp [mapGet] at h
  | cons q rest ih =>
    obtain ⟨kq, iq⟩ := q
    rw [mapGet] at h
    by_cases hk : kq = k
    · rw [if_pos hk] at h
      subst hk
      cases h
      exact List.mem_cons_self _ _
    · rw [if_neg hk] at h
      exact List.mem_cons_of_mem _ (ih h)

theorem mapGet_mapSet_self : mapGet (mapSet m k i) k = some i := by
  induction m with
  | nil => simp [mapSet, mapGet]
  | cons q rest ih =>
    obtain ⟨kq, iq⟩ := q
    rw [mapSet]
    by_cases hk : kq = k
    · rw [if_pos hk, mapGet, if_pos rfl]
    · rw [if_neg hk, mapGet, if_neg hk]
      exact ih

theorem mapGet_mapSet_ne (h : k2 ≠ k) : mapGet (mapSet m k i) k2 = mapGet m k2 := by
  induction m with
  | nil => simp [mapSet, mapGet, Ne.symm h]
  | cons q rest ih =>
    obtain ⟨kq, iq⟩ := q
    rw [mapSet]
    by_cases hk : kq = k
    · rw [if_pos hk, mapGet, mapGet, if_neg (fun hh : k = k2 => h hh.symm), hk,
        if_neg (fun hh : k = k2 => h hh.symm)]
    · rw [if_neg hk, mapGet, mapGet]
      by_cases hq : kq = k2
      · rw [if_pos hq, if_pos hq]
      · rw [if_neg hq, if_neg hq, ih]

theorem mapSet_of_none (h : mapGet m k = none) : mapSet m k i = m ++ [(k, i)] := by
  induction m with
  | nil => rfl
  | cons q rest ih =>
    obtain ⟨kq, iq⟩ := q
    rw [mapGet] at h
    by_cases hk : kq = k
    · rw [if_pos hk] at h; cases h
    · rw [if_neg hk] at h
      rw [mapSet, if_neg hk, ih h]
      rfl

theorem mapDelete_sublist : List.Sublist (mapDelete m k) m := by
  induction m with
  | nil => exact List.Sublist.refl _
  | cons q rest ih =>
    obtain ⟨kq, iq⟩ := q
    rw [mapDelete]
    by_cases hk : kq = k
    · rw [if_pos hk]; exact List.sublist_cons_self _ _
    · rw [if_neg hk]; exact List.Sublist.cons₂ _ ih

theorem mapGet_mapDelete_ne (h : k2 ≠ k) : mapGet (mapDelete m k) k2 = mapGet m k2 := by
  induction m with
  | nil => rfl
  | cons q rest ih =>
    obtain ⟨kq, iq⟩ := q
    rw [mapDelete]
    by_cases hk : kq = k
    · rw [if_pos hk, mapGet, hk, if_neg (fun hh : k = k2 => h hh.symm)]
    · rw [if_neg hk, mapGet, mapGet]
      by_cases hq : kq = k2
      · rw [if_pos hq, if_pos hq]
      · rw [if_neg hq, if_neg hq, ih]

theorem length_mapDelete (h : mapGet m k = some i) :
    (mapDelete m k).length + 1 = m.length := by
  induction m with
  | nil => simp [mapGet] at h
  | cons q rest ih =>
    obtain ⟨kq, iq⟩ := q
    rw [mapGet] at h
    rw [mapDelete]
    by_cases hk : kq = k
    · rw [if_pos hk]; rfl
    · rw [if_neg hk] at h
      rw [if_neg hk, List.length_cons, List.length_cons, ih h]

theorem mem_mapDelete (hn : (m.map Prod.fst).Nodup) (hp : p ∈ mapDelete m k) :
    p ∈ m ∧ p.1 ≠ k := by
  induction m with
  | nil => simp [mapDelete] at hp
  | cons q rest ih =>
    obtain ⟨kq, iq⟩ := q
    rw [List.map_cons, List.nodup_cons] at hn
    rw [mapDelete] at hp
    by_cases hk : kq = k
    · rw [if_pos hk] at hp
      refine ⟨List.mem_cons_of_mem _ hp, ?_⟩
      intro hpk
      have hmem : p.1 ∈ List.map Prod.fst rest := List.mem_map_of_mem Prod.fst hp
      rw [hpk, ← hk] at hmem
      exact hn.1 hmem
    · rw [if_neg hk] at hp
      rcases List.mem_cons.mp hp with h1 | h1
      · exact ⟨List.mem_cons.mpr (Or.inl h1), h1 ▸ hk⟩
      · obtain ⟨h2, h3⟩ := ih hn.2 h1
        exact ⟨List.mem_cons_of_mem _ h2, h3⟩

end MapLemmas

/-! ### Segment lemmas -/

section SegLemmas

@[simp] theorem headOr_nil (d : Option Nat) : headOr [] d = d := rfl

@[simp] theorem headOr_cons (a : Nat) (t : List Nat) (d : Option Nat) :
    headOr (a :: t) d = some a := rfl

theorem headOr_append (l1 l2 : List Nat) (d : Option Nat) :
    headOr (l1 ++ l2) d = headOr l1 (headOr l2 d) := by
  cases l1 <;> rfl

@[simp] theorem lastOr_nil (d : Option Nat) : lastOr [] d = d := rfl

@[simp] theorem lastOr_cons (a : Nat) (t : List Nat) (d : Option Nat) :
    lastOr (a :: t) d = lastOr t (some a) := rfl

theorem lastOr_append (l1 l2 : List Nat) (d : Option Nat) :
    lastOr (l1 ++ l2) d = lastOr l2 (lastOr l1 d) := by
  induction l1 generalizing d with
  | nil => rfl
  | cons a t ih => rw [List.cons_append, lastOr_cons, lastOr_cons, ih]

theorem lastOr_concat (l : List Nat) (b : Nat) (d : Option Nat) :
    lastOr (l ++ [b]) d = some b := by
  rw [lastOr_append]; rfl

theorem dseg_nil (s : Lru K V) (pv nx : Option Nat) : dseg s pv [] nx = True := rfl

theorem dseg_cons (s : Lru K V) (pv nx : Option Nat) (a : Nat) (t : List Nat) :
    dseg s pv (a :: t) nx =
      ((nodeAt s a).newer = pv ∧ (nodeAt s a).older = headOr t nx ∧ dseg s (some a) t nx) := rfl

theorem dseg_congr {s t : Lru K V} {l : List Nat} {pv nx : Option Nat}
    (hn : ∀ j ∈ l, nodeAt t j = nodeAt s j) (h : dseg s pv l nx) : dseg t pv l nx := by
  induction l generalizing pv with
  | nil => trivial
  | cons a rest ih =>
    obtain ⟨h1, h2, h3⟩ := h
    have ha := hn a (List.mem_cons_self _ _)
    exact ⟨ha ▸ h1, ha ▸ h2, ih (fun j hj => hn j (List.mem_cons_of_mem _ hj)) h3⟩

theorem dseg_append {s : Lru K V} {l1 l2 : List Nat} {pv nx : Option Nat} :
    dseg s pv (l1 ++ l2) nx ↔
      dseg s pv l1 (headOr l2 nx) ∧ dseg s (lastOr l1 pv) l2 nx := by
  induction l1 generalizing pv with
  | nil => simp [dseg]
  | cons a t ih =>
    rw [List.cons_append, dseg_cons, dseg_cons, headOr_append, ih, lastOr_cons]
    tauto

end SegLemmas

section RelinkLemmas

theorem dseg_relink_one {t : Lru K V} {a : Nat} {pv2 nx2 : Option Nat}
    (h1 : (nodeAt t a).newer = pv2) (h2 : (nodeAt t a).older = nx2) :
    dseg t pv2 [a] nx2 := ⟨h1, h2, trivial⟩

theorem dseg_relink_aux {s t : Lru K V} {b : Nat} {nx nx2 : Option Nat}
    (hb1 : (nodeAt t b).newer = (nodeAt s b).newer)
    (hb2 : (nodeAt t b).older = nx2) :
    ∀ (F : List Nat) (pv : Option Nat), (∀ j ∈ F, nodeAt t j = nodeAt s j) →
      dseg s pv (F ++ [b]) nx → dseg t pv (F ++ [b]) nx2 := by
  intro F
  induction F with
  | nil =>
    intro pv _ h
    obtain ⟨g1, _, _⟩ := h
    exact ⟨hb1.trans g1, hb2, trivial⟩
  | cons f F2 ih =>
    intro pv hmid h
    rw [List.cons_append] at h ⊢
    rw [dseg_cons] at h ⊢
    obtain ⟨g1, g2, g3⟩ := h
    have hf := hmid f (List.mem_cons_self _ _)
    refine ⟨hf ▸ g1, ?_, ih (some f) (fun j hj => hmid j (List.mem_cons_of_mem _ hj)) g3⟩
    rw [hf, g2, headOr_append, headOr_append]
    rfl

theorem dseg_relink_ends {s t : Lru K V} {l : List Nat} {pv nx pv2 nx2 : Option Nat}
    {hd lt : Nat}
    (hl : l ≠ []) (hnd : l.Nodup)
    (hhd : headOr l none = some hd) (hlt : lastOr l none = some lt)
    (h : dseg s pv l nx)
    (h1 : (nodeAt t hd).newer = pv2)
    (h2 : (nodeAt t lt).older = nx2)
    (h3 : hd ≠ lt → (nodeAt t hd).older = (nodeAt s hd).older)
    (h4 : hd ≠ lt → (nodeAt t lt).newer = (nodeAt s lt).newer)
    (h5 : ∀ j ∈ l, j ≠ hd → j ≠ lt → nodeAt t j = nodeAt s j) :
    dseg t pv2 l nx2 := by
  rcases List.eq_nil_or_concat l with rfl | ⟨F2, b, rfl⟩
  · exact absurd rfl hl
  rw [List.concat_eq_append] at hhd hlt hnd h h5 ⊢
  cases F2 with
  | nil =>
    rw [List.nil_append] at hhd hlt hnd h h5 ⊢
    rw [headOr_cons] at hhd
    rw [lastOr_cons, lastOr_nil] at hlt
    obtain rfl := Option.some.inj hhd
    obtain rfl := Option.some.inj hlt
    exact dseg_relink_one h1 h2
  | cons a F =>
    rw [List.cons_append] at hhd hlt hnd h h5 ⊢
    rw [headOr_cons] at hhd
    rw [lastOr_cons, lastOr_concat] at hlt
    obtain rfl := Option.some.inj hhd
    obtain rfl := Option.some.inj hlt
    rw [List.nodup_cons] at hnd
    have hab : a ≠ b := by
      intro hh
      subst hh
      exact hnd.1 (List.mem_append_right F (List.mem_singleton_self a))
    have hbF : b ∉ F := by
      intro hh
      have h6 := List.nodup_append.mp hnd.2
      exact h6.2.2 hh (List.mem_singleton_self b)
    rw [dseg_cons] at h ⊢
    obtain ⟨g1, g2, g3⟩ := h
    refine ⟨h1, ?_, ?_⟩
    · rw [h3 hab, g2, headOr_append, headOr_append]
      rfl
    · refine dseg_relink_aux (h4 hab) h2 F (some a) ?_ g3
      intro j hj
      have hja : j ≠ a := fun hh => hnd.1 (hh ▸ List.mem_append_left _ hj)
      exact h5 j (List.mem_cons_of_mem _ (List.mem_append_left _ hj)) hja
        (fun hh => hbF (hh ▸ hj))

end RelinkLemmas

section TraverseLemmas

theorem nodup_length_le {l : List Nat} {n : Nat} (hnd : l.Nodup) (hb : ∀ i ∈ l, i < n) :
    l.length ≤ n := by
  have hsub : l ⊆ List.range n := fun i hi => List.mem_range.mpr (hb i hi)
  have := List.Subperm.length_le (List.subperm_of_subset hnd hsub)
  simpa using this

theorem traverseFrom_eq {s : Lru K V} {l : List Nat} {pv : Option Nat} {fuel : Nat}
    (h : dseg s pv l none) (hb : ∀ j ∈ l, j < s.nodes.length) (hf : l.length ≤ fuel) :
    traverseFrom s fuel (headOr l none) =
      l.map (fun j => ((nodeAt s j).key, (nodeAt s j).value)) := by
  induction l generalizing fuel pv with
  | nil => cases fuel <;> rfl
  | cons a t ih =>
    cases fuel with
    | zero => simp at hf
    | succ f =>
      obtain ⟨g1, g2, g3⟩ := h
      have ha : a < s.nodes.length := hb a (List.mem_cons_self _ _)
      have ihr := ih g3 (fun j hj => hb j (List.mem_cons_of_mem _ hj)) (Nat.le_of_succ_le_succ hf)
      rw [headOr_cons]
      simp only [traverseFrom, getElem?_eq_nodeAt s ha]
      rw [g2, ihr, List.map_cons]

end TraverseLemmas

/-! ### Operation-level lemmas -/

section AbsHelpers

theorem abs_mapGet {s : Lru K V} {ids : List Nat} (h : Abs s ids) {k : K} {i : Nat} :
    mapGet s.nodeMap k = some i ↔ (i ∈ ids ∧ (nodeAt s i).key = k) := by
  obtain ⟨-, -, -, -, -, hmem, hlook, -, -⟩ := h
  constructor
  · intro hg
    exact hmem _ (mapGet_mem hg)
  · rintro ⟨h1, rfl⟩
    exact hlook i h1

theorem abs_key_inj {s : Lru K V} {ids : List Nat} (h : Abs s ids) {i j : Nat}
    (hi : i ∈ ids) (hj : j ∈ ids) (hk : (nodeAt s i).key = (nodeAt s j).key) : i = j := by
  obtain ⟨-, -, -, -, -, -, hlook, -, -⟩ := h
  have h1 := hlook i hi
  have h2 := hlook j hj
  rw [hk, h2] at h1
  exact (Option.some.inj h1).symm

theorem headOr_eq_none {l : List Nat} (h : headOr l none = none) : l = [] := by
  cases l with
  | nil => rfl
  | cons a t => simp [headOr] at h

end AbsHelpers

section InsertLemmas

theorem insert_spec {s : Lru K V} {ids : List Nat} (k : K) (v : V) (h : Abs s ids) :
    dseg (s.insert k v) none (s.nodes.length :: ids) none ∧
    (s.insert k v).newest = some s.nodes.length ∧
    (s.insert k v).oldest = lastOr ids (some s.nodes.length) ∧
    (s.insert k v).nodes.length = s.nodes.length + 1 ∧
    (∀ j, j < s.nodes.length → (nodeAt (s.insert k v) j).key = (nodeAt s j).key ∧
      (nodeAt (s.insert k v) j).value = (nodeAt s j).value) ∧
    nodeAt (s.insert k v) s.nodes.length =
      { newer := none, older := s.newest, key := k, value := v } ∧
    (s.insert k v).nodeMap = mapSet s.nodeMap k s.nodes.length := by
  obtain ⟨hch, hnew, hold, hnd, hb, -, -, -, -⟩ := h
  cases hw : s.newest with
  | none =>
    obtain rfl : ids = [] := headOr_eq_none (hw ▸ hnew).symm
    have hlen : ∀ j, j < s.nodes.length → (s.nodes ++
        [{ newer := none, older := none, key := k, value := v : CacheNode K V }])[j]? = s.nodes[j]? :=
      fun j hj => List.getElem?_append_left hj
    refine ⟨?_, ?_, ?_, ?_, ?_, ?_, ?_⟩
    · rw [Lru.insert, hw]
      refine ⟨?_, ?_, trivial⟩ <;>
        simp [nodeAt, List.getElem?_concat_length]
    · rw [Lru.insert, hw]
    · rw [Lru.insert, hw]
      rfl
    · rw [Lru.insert, hw]
      simp
    · intro j hj
      rw [Lru.insert, hw]
      constructor <;> simp [nodeAt, hlen j hj]
    · rw [Lru.insert, hw]
      simp [nodeAt, List.getElem?_concat_length, hw]
    · rw [Lru.insert, hw]
  | some w =>
    obtain ⟨t, rfl⟩ : ∃ t, ids = w :: t := by
      cases ids with
      | nil => rw [hnew] at hw; cases hw
      | cons a t =>
        rw [hnew] at hw
        rw [headOr_cons] at hw
        exact ⟨t, by rw [Option.some.inj hw]⟩
    have hwlt : w < s.nodes.length := hb w (List.mem_cons_self _ _)
    have hwne : w ≠ s.nodes.length := Nat.ne_of_lt hwlt
    obtain ⟨hc1, hc2, hc3⟩ := hch
    set nd : CacheNode K V := { newer := none, older := some w, key := k, value := v } with hnd2
    set s1 : Lru K V := ⟨s.nodes ++ [nd], s.nodeMap, some w, s.oldest⟩ with hs1
    have hs1at : ∀ j, j < s.nodes.length → nodeAt s1 j = nodeAt s j := by
      intro j hj
      simp only [nodeAt, hs1]
      rw [List.getElem?_append_left hj]
    have hs1nid : nodeAt s1 s.nodes.length = nd := by
      simp only [nodeAt, hs1]
      rw [List.getElem?_concat_length]
      rfl
    have hs1len : s1.nodes.length = s.nodes.length + 1 := by simp [hs1]
    have hins : s.insert k v =
        { updNewer s1 w (some s.nodes.length) with
            nodeMap := mapSet (updNewer s1 w (some s.nodes.length)).nodeMap k s.nodes.length,
            newest := some s.nodes.length } := by
      simp only [Lru.insert, hw]
    have hw2 : ∀ j, j ≠ w → nodeAt (updNewer s1 w (some s.nodes.length)) j = nodeAt s1 j :=
      fun j hj => nodeAt_updNewer_ne s1 w (some s.nodes.length) hj
    have hwself : nodeAt (updNewer s1 w (some s.nodes.length)) w =
        { nodeAt s w with newer := some s.nodes.length } := by
      rw [nodeAt_updNewer_self s1 w (some s.nodes.length)
        (by rw [hs1len]; exact Nat.lt_succ_of_lt hwlt)]
      rw [hs1at w hwlt]
    have hatrec : ∀ j, nodeAt (s.insert k v) j = nodeAt (updNewer s1 w (some s.nodes.length)) j := by
      intro j
      rw [hins]
      rfl
    refine ⟨?_, ?_, ?_, ?_, ?_, ?_, ?_⟩
    · refine ⟨?_, ?_, ?_, ?_, ?_⟩
      · rw [hatrec, hw2 _ (Ne.symm hwne), hs1nid]
      · rw [hatrec, hw2 _ (Ne.symm hwne), hs1nid]
        rfl
      · rw [hatrec, hwself]
      · rw [hatrec, hwself]
        exact hc2
      · refine dseg_congr ?_ hc3
        intro j hj
        have hjw : j ≠ w := by
          rintro rfl
          exact (List.nodup_cons.mp hnd).1 hj
        rw [hatrec, hw2 _ hjw, hs1at j (hb j (List.mem_cons_of_mem _ hj))]
    · rw [hins]
    · rw [hins]
      show (updNewer s1 w (some s.nodes.length)).oldest = lastOr (w :: t) (some s.nodes.length)
      rw [updNewer_oldest]
      show s.oldest = lastOr t (some w)
      exact hold
    · rw [hins]
      show (updNewer s1 w (some s.nodes.length)).nodes.length = s.nodes.length + 1
      rw [updNewer_length, hs1len]
    · intro j hj
      rw [hatrec]
      by_cases hjw : j = w
      · rw [hjw, hwself]
        exact ⟨rfl, rfl⟩
      · rw [hw2 _ hjw, hs1at j hj]
        exact ⟨rfl, rfl⟩
    · rw [hatrec, hw2 _ (Ne.symm hwne), hs1nid]
    · rw [hins]
      show mapSet (updNewer s1 w (some s.nodes.length)).nodeMap k s.nodes.length =
        mapSet s.nodeMap k s.nodes.length
      rw [updNewer_nodeMap]

end InsertLemmas

section EvictLemmas

theorem lastOr_mem : ∀ (l : List Nat) (d : Option Nat), l ≠ [] →
    ∃ p, lastOr l d = some p ∧ p ∈ l := by
  intro l
  induction l with
  | nil => intro d h; exact absurd rfl h
  | cons a t ih =>
    intro d h
    cases t with
    | nil => exact ⟨a, rfl, List.mem_singleton_self a⟩
    | cons b u =>
      obtain ⟨p, h1, h2⟩ := ih (some a) (by simp)
      exact ⟨p, by rw [lastOr_cons]; exact h1, List.mem_cons_of_mem _ h2⟩

theorem evictLoop_oldest_none {s : Lru K V} (h : s.oldest = none) (count : Nat) :
    evictLoop count s = ([], s) := by
  cases count with
  | zero => rfl
  | succ c => rw [evictLoop, h]

theorem evictLoop_succ {s : Lru K V} {oid : Nat} (h : s.oldest = some oid)
    (hlt : oid < s.nodes.length) (c : Nat) :
    evictLoop (c + 1) s =
      (⟨(nodeAt s oid).key, (nodeAt s oid).value⟩ :: (evictLoop c (evictTail s oid)).1,
        (evictLoop c (evictTail s oid)).2) := by
  simp only [evictLoop, h, getElem?_eq_nodeAt s hlt]

theorem evictTail_none {s : Lru K V} {oid : Nat} (h : (nodeAt s oid).newer = none) :
    evictTail s oid = ⟨s.nodes, mapDelete s.nodeMap ((nodeAt s oid).key), s.newest, none⟩ := by
  simp only [evictTail, h]

theorem evictTail_some {s : Lru K V} {oid p : Nat} (h : (nodeAt s oid).newer = some p) :
    evictTail s oid =
      { updOlder { s with oldest := some p } p none with
          nodeMap := mapDelete s.nodeMap ((nodeAt s oid).key) } := by
  simp only [evictTail, h, updOlder_nodeMap]

theorem evict_spec :
    ∀ (count : Nat) (s : Lru K V) (ids : List Nat), Abs s ids →
      (s.evict count).1 = (ids.reverse.take count).map
          (fun j => ⟨(nodeAt s j).key, (nodeAt s j).value⟩) ∧
      (s.evict count).2.nodeMap.length = ids.length - count ∧
      (count < ids.length → Abs (s.evict count).2 (ids.take (ids.length - count))) ∧
      (ids.length ≤ count → (s.evict count).2.nodeMap = []) ∧
      (∀ p ∈ (s.evict count).2.nodeMap, p ∈ s.nodeMap) := by
  intro count
  induction count with
  | zero =>
    intro s ids h
    have hsz := h.2.2.2.2.2.2.2.2
    refine ⟨rfl, ?_, ?_, ?_, fun p hp => hp⟩
    · rw [Nat.sub_zero]
      exact hsz
    · intro _
      rw [Nat.sub_zero, List.take_length]
      exact h
    · intro hle
      have : ids.length = 0 := Nat.le_zero.mp hle
      exact List.eq_nil_of_length_eq_zero (hsz.trans this)
  | succ c ih =>
    intro s ids h
    obtain ⟨hch, hnew, hold, hnd, hb, hm1, hm2, hkn, hsz⟩ := h
    rcases List.eq_nil_or_concat ids with rfl | ⟨F, l, rfl⟩
    · have holdn : s.oldest = none := by rw [hold]; rfl
      have hev : s.evict (c + 1) = ([], s) := by
        rw [Lru.evict, evictLoop, holdn]
      refine ⟨?_, ?_, ?_, ?_, ?_⟩
      · rw [hev]
        simp
      · rw [hev]
        simpa using hsz
      · intro hlt
        simp at hlt
      · intro _
        rw [hev]
        exact List.eq_nil_of_length_eq_zero hsz
      · intro p hp
        rw [hev] at hp
        exact hp
    · rw [List.concat_eq_append] at hch hnew hold hnd hb hm1 hm2 hsz ⊢
      have hlmem : l ∈ F ++ [l] := List.mem_append_right F (List.mem_singleton_self l)
      have hllt : l < s.nodes.length := hb l hlmem
      have holds : s.oldest = some l := by rw [hold, lastOr_concat]
      have hdecomp := dseg_append.mp hch
      have hF : dseg s none F (some l) := hdecomp.1
      obtain ⟨hlnew, hlold, -⟩ := hdecomp.2
      have hstep := evictLoop_succ holds hllt c
      have hmgl : mapGet s.nodeMap ((nodeAt s l).key) = some l := hm2 l hlmem
      have hlenF : (F ++ [l]).length = F.length + 1 := by simp
      have hmdlen : (mapDelete s.nodeMap ((nodeAt s l).key)).length = F.length := by
        have h2 := length_mapDelete hmgl
        omega
      cases F with
      | nil =>
        have hln0 : (nodeAt s l).newer = none := hlnew
        have ht3 := evictTail_none hln0
        have ht3old : (evictTail s l).oldest = none := by rw [ht3]
        have ht3map : (evictTail s l).nodeMap = [] := by
          rw [ht3]
          exact List.eq_nil_of_length_eq_zero (by simpa using hmdlen)
        have hrest := evictLoop_oldest_none ht3old c
        have hev : s.evict (c + 1) =
            (⟨(nodeAt s l).key, (nodeAt s l).value⟩ :: [], evictTail s l) := by
          rw [Lru.evict, hstep, hrest]
        refine ⟨?_, ?_, ?_, ?_, ?_⟩
        · rw [hev]
          simp
        · rw [hev, ht3map]
          simp
        · intro hlt
          simp at hlt
        · intro _
          rw [hev]
          exact ht3map
        · intro p hp
          rw [hev, ht3map] at hp
          cases hp
      | cons hd F2 =>
        obtain ⟨p, hplast, hpmem⟩ := lastOr_mem (hd :: F2) none (by simp)
        have hln : (nodeAt s l).newer = some p := by rw [hlnew, hplast]
        have hplt : p < s.nodes.length := hb p (List.mem_append_left _ hpmem)
        set F : List Nat := hd :: F2 with hFdef
        set s1 : Lru K V := { s with oldest := some p } with hs1def
        have hs1at : ∀ j, nodeAt s1 j = nodeAt s j := fun j => rfl
        have ht3 := evictTail_some hln
        set t3 := evictTail s l with ht3def
        have ht3at : ∀ j, nodeAt t3 j = nodeAt (updOlder s1 p none) j := by
          intro j
          rw [ht3]
          rfl
        have ht3ne : ∀ j, j ≠ p → nodeAt t3 j = nodeAt s j := by
          intro j hj
          rw [ht3at, nodeAt_updOlder_ne s1 p none hj, hs1at]
        have ht3p : nodeAt t3 p = { nodeAt s p with older := none } := by
          rw [ht3at, nodeAt_updOlder_self s1 p none hplt, hs1at]
        have ht3newer : ∀ j, (nodeAt t3 j).newer = (nodeAt s j).newer := by
          intro j
          rw [ht3at, newer_nodeAt_updOlder, hs1at]
        have ht3key : ∀ j, (nodeAt t3 j).key = (nodeAt s j).key := by
          intro j
          rw [ht3at, key_nodeAt_updOlder, hs1at]
        have ht3value : ∀ j, (nodeAt t3 j).value = (nodeAt s j).value := by
          intro j
          rw [ht3at, value_nodeAt_updOlder, hs1at]
        have ht3newest : t3.newest = s.newest := by
          rw [ht3]
          show (updOlder s1 p none).newest = s.newest
          rw [updOlder_newest]
        have ht3old : t3.oldest = some p := by
          rw [ht3]
          show (updOlder s1 p none).oldest = some p
          rw [updOlder_oldest]
        have ht3len : t3.nodes.length = s.nodes.length := by
          rw [ht3]
          show (updOlder s1 p none).nodes.length = s.nodes.length
          rw [updOlder_length]
        have ht3map : t3.nodeMap = mapDelete s.nodeMap ((nodeAt s l).key) := by rw [ht3]
        have hndF : F.Nodup := (List.nodup_append.mp hnd).1
        have hlF : l ∉ F := by
          intro hh
          exact (List.nodup_append.mp hnd).2.2 hh (List.mem_singleton_self l)
        have hkeyne : ∀ j ∈ F, (nodeAt s j).key ≠ (nodeAt s l).key := by
          intro j hj hk
          exact hlF (abs_key_inj ⟨hch, hnew, hold, hnd, hb, hm1, hm2, hkn, hsz⟩
            (List.mem_append_left _ hj) hlmem hk ▸ hj)
        have habs3 : Abs t3 F := by
          refine ⟨?_, ?_, ?_, hndF, ?_, ?_, ?_, ?_, ?_⟩
          · have hhdF : headOr F none = some hd := by rw [hFdef]; rfl
            have hFne : F ≠ [] := by simp [hFdef]
            refine dseg_relink_ends hFne hndF hhdF hplast hF ?_ ?_ ?_ ?_ ?_
            · rw [ht3newer]
              exact hF.1
            · rw [ht3p]
            · intro hne
              rw [ht3ne hd hne]
            · intro hne
              rw [ht3newer]
            · intro j _ _ hjp
              exact ht3ne j hjp
          · rw [ht3newest, hnew, hFdef]
            rfl
          · rw [ht3old, hplast]
          · intro j hj
            rw [ht3len]
            exact hb j (List.mem_append_left _ hj)
          · intro q hq
            rw [ht3map] at hq
            obtain ⟨hq1, hq2⟩ := mem_mapDelete hkn hq
            obtain ⟨hq3, hq4⟩ := hm1 q hq1
            have hqne : q.2 ≠ l := by
              intro hh
              exact hq2 (by rw [← hq4, hh])
            have hq5 : q.2 ∈ F := by
              rcases List.mem_append.mp hq3 with h6 | h6
              · exact h6
              · exact absurd (List.mem_singleton.mp h6) hqne
            refine ⟨hq5, ?_⟩
            rw [ht3key]
            exact hq4
          · intro j hj
            rw [ht3key, ht3map, mapGet_mapDelete_ne (hkeyne j hj)]
            exact hm2 j (List.mem_append_left _ hj)
          · rw [ht3map]
            exact hkn.sublist (List.Sublist.map Prod.fst mapDelete_sublist)
          · rw [ht3map, hmdlen]
        have ihr := ih t3 F habs3
        have hev : s.evict (c + 1) =
            (⟨(nodeAt s l).key, (nodeAt s l).value⟩ :: (t3.evict c).1, (t3.evict c).2) := by
          rw [Lru.evict, hstep]
          rfl
        have hrev : (F ++ [l]).reverse = l :: F.reverse := by simp
        have hmapf : (F.reverse.take c).map
              (fun j => (⟨(nodeAt t3 j).key, (nodeAt t3 j).value⟩ : Evicted K V)) =
            (F.reverse.take c).map
              (fun j => ⟨(nodeAt s j).key, (nodeAt s j).value⟩) := by
          refine List.map_congr_left ?_
          intro j _
          rw [ht3key, ht3value]
        refine ⟨?_, ?_, ?_, ?_, ?_⟩
        · rw [hev, hrev]
          rw [List.take_succ_cons, List.map_cons]
          rw [ihr.1, hmapf]
        · rw [hev, ihr.2.1, hlenF]
          omega
        · intro hlt
          rw [hlenF] at hlt ⊢
          have hlt2 : c < F.length := by omega
          have heq : F.length + 1 - (c + 1) = F.length - c := by omega
          rw [heq]
          have htake : (F ++ [l]).take (F.length - c) = F.take (F.length - c) := by
            rw [List.take_append_eq_append_take]
            have : F.length - c - F.length = 0 := by omega
            rw [this]
            simp
          rw [htake, hev]
          exact ihr.2.2.1 hlt2
        · intro hle
          rw [hlenF] at hle
          rw [hev]
          exact ihr.2.2.2.1 (by omega)
        · intro x hx
          rw [hev] at hx
          have hx2 := ihr.2.2.2.2 x hx
          rw [ht3map] at hx2
          exact mapDelete_sublist.subset hx2

end EvictLemmas

section PromoteLemmas

@[simp] theorem nodeAt_mk_nodes (s : Lru K V) (mp : List (K × Nat)) (nw od : Option Nat)
    (j : Nat) : nodeAt (⟨s.nodes, mp, nw, od⟩ : Lru K V) j = nodeAt s j := rfl

theorem lastOr_indep : ∀ (l : List Nat) (d d2 : Option Nat), l ≠ [] →
    lastOr l d = lastOr l d2 := by
  intro l d d2 h
  cases l with
  | nil => exact absurd rfl h
  | cons a t => rw [lastOr_cons, lastOr_cons]

theorem dseg_last_older {s : Lru K V} :
    ∀ {l : List Nat} {pv nx : Option Nat} {lt : Nat},
      dseg s pv l nx → lastOr l none = some lt → (nodeAt s lt).older = nx := by
  intro l
  induction l with
  | nil => intro pv nx lt _ hl; cases hl
  | cons a t ih =>
    intro pv nx lt h hl
    obtain ⟨-, h2, h3⟩ := h
    cases t with
    | nil =>
      rw [lastOr_cons, lastOr_nil] at hl
      obtain rfl := Option.some.inj hl
      exact h2
    | cons b u =>
      rw [lastOr_cons] at hl
      rw [lastOr_indep (b :: u) (some a) none (by simp)] at hl
      exact ih h3 hl

theorem headOr_ne_nil {l : List Nat} {x : Nat} (h : headOr l none = some x) : l ≠ [] := by
  intro hh
  rw [hh] at h
  cases h

theorem promoteOldest_spec {s : Lru K V} {F : List Nat} {i hd p : Nat}
    (hF : dseg s none F (some i))
    (hin : (nodeAt s i).newer = some p) (hio : (nodeAt s i).older = none)
    (hnw : s.newest = some hd)
    (hhd : headOr F none = some hd) (hplast : lastOr F none = some p)
    (hndF : F.Nodup) (hiF : i ∉ F) (hpF : p ∈ F)
    (hb : ∀ j ∈ F, j < s.nodes.length) (hi : i < s.nodes.length) :
    dseg (promoteOldest s i) none (i :: F) none ∧
    (promoteOldest s i).newest = some i ∧
    (promoteOldest s i).oldest = some p ∧
    (promoteOldest s i).nodeMap = s.nodeMap ∧
    (promoteOldest s i).nodes.length = s.nodes.length ∧
    (∀ j, (nodeAt (promoteOldest s i) j).key = (nodeAt s j).key ∧
      (nodeAt (promoteOldest s i) j).value = (nodeAt s j).value) := by
  have hFne : F ≠ [] := headOr_ne_nil hhd
  have hip : i ≠ p := fun hh => hiF (hh ▸ hpF)
  have hhdF : hd ∈ F := by
    cases F with
    | nil => exact absurd rfl hFne
    | cons a t =>
      rw [headOr_cons] at hhd
      exact (Option.some.inj hhd) ▸ List.mem_cons_self a t
  have hihd : i ≠ hd := fun hh => hiF (hh ▸ hhdF)
  have hplt : p < s.nodes.length := hb p hpF
  have hhdlt : hd < s.nodes.length := hb hd hhdF
  set base : Lru K V := ⟨s.nodes, s.nodeMap, some hd, some p⟩ with hbase
  have ht : promoteOldest s i =
      { updNewer (updNewer (updOlder (updOlder base p none) i (some hd)) i none) hd (some i)
          with newest := some i } := by
    simp only [promoteOldest, nodeAt_mk_nodes, hin, hnw, hbase, updOlder_newest,
      updNewer_newest]
  set u1 := updOlder base p none with hu1
  set u2 := updOlder u1 i (some hd) with hu2
  set u3 := updNewer u2 i none with hu3
  set u4 := updNewer u3 hd (some i) with hu4
  have hbat : ∀ j, nodeAt base j = nodeAt s j := fun j => rfl
  have hblen : base.nodes.length = s.nodes.length := rfl
  have hu1len : u1.nodes.length = s.nodes.length := by rw [hu1, updOlder_length, hblen]
  have hu2len : u2.nodes.length = s.nodes.length := by rw [hu2, updOlder_length, hu1len]
  have hu3len : u3.nodes.length = s.nodes.length := by rw [hu3, updNewer_length, hu2len]
  have hu4len : u4.nodes.length = s.nodes.length := by rw [hu4, updNewer_length, hu3len]
  have htat : ∀ j, nodeAt (promoteOldest s i) j = nodeAt u4 j := by
    intro j
    rw [ht]
    rfl
  have hu1ne : ∀ j, j ≠ p → nodeAt u1 j = nodeAt s j := by
    intro j hj
    rw [hu1, nodeAt_updOlder_ne base p none hj, hbat]
  have hu1p : nodeAt u1 p = { nodeAt s p with older := none } := by
    rw [hu1, nodeAt_updOlder_self base p none (hblen ▸ hplt), hbat]
  have hu2ne : ∀ j, j ≠ i → nodeAt u2 j = nodeAt u1 j := by
    intro j hj
    rw [hu2, nodeAt_updOlder_ne u1 i (some hd) hj]
  have hu2i : nodeAt u2 i = { nodeAt s i with older := some hd } := by
    rw [hu2, nodeAt_updOlder_self u1 i (some hd) (hu1len ▸ hi), hu1ne i hip]
  have hu3ne : ∀ j, j ≠ i → nodeAt u3 j = nodeAt u2 j := by
    intro j hj
    rw [hu3, nodeAt_updNewer_ne u2 i none hj]
  have hu3i : nodeAt u3 i = { nodeAt s i with older := some hd, newer := none } := by
    rw [hu3, nodeAt_updNewer_self u2 i none (hu2len ▸ hi), hu2i]
  have hu4ne : ∀ j, j ≠ hd → nodeAt u4 j = nodeAt u3 j := by
    intro j hj
    rw [hu4, nodeAt_updNewer_ne u3 hd (some i) hj]
  have hu4hd : nodeAt u4 hd = { nodeAt u3 hd with newer := some i } := by
    rw [hu4, nodeAt_updNewer_self u3 hd (some i) (hu3len ▸ hhdlt)]
  have ht_i : nodeAt (promoteOldest s i) i =
      { nodeAt s i with older := some hd, newer := none } := by
    rw [htat, hu4ne i hihd, hu3i]
  have ht_unch : ∀ j, j ≠ p → j ≠ i → j ≠ hd → nodeAt (promoteOldest s i) j = nodeAt s j := by
    intro j h1 h2 h3
    rw [htat, hu4ne j h3, hu3ne j h2, hu2ne j h2, hu1ne j h1]
  have ht_hd_ne : hd ≠ p → nodeAt (promoteOldest s i) hd =
      { nodeAt s hd with newer := some i } := by
    intro hne
    rw [htat, hu4hd, hu3ne hd (Ne.symm hihd), hu2ne hd (Ne.symm hihd), hu1ne hd hne]
  have ht_p_ne : hd ≠ p → nodeAt (promoteOldest s i) p =
      { nodeAt s p with older := none } := by
    intro hne
    rw [htat, hu4ne p (fun hh => hne hh.symm), hu3ne p (Ne.symm hip), hu2ne p (Ne.symm hip),
      hu1p]
  have ht_hdp : hd = p → nodeAt (promoteOldest s i) hd =
      { nodeAt s hd with older := none, newer := some i } := by
    intro heq
    rw [htat, hu4hd, hu3ne hd (Ne.symm hihd), hu2ne hd (Ne.symm hihd), heq, hu1p, ← heq]
  refine ⟨?_, ?_, ?_, ?_, ?_, ?_⟩
  · refine ⟨?_, ?_, ?_⟩
    · rw [ht_i]
    · rw [ht_i, hhd]
    · refine dseg_relink_ends hFne hndF hhd hplast hF ?_ ?_ ?_ ?_ ?_
      · by_cases hne : hd = p
        · rw [ht_hdp hne]
        · rw [ht_hd_ne hne]
      · by_cases hne : hd = p
        · rw [← hne, ht_hdp hne]
        · rw [ht_p_ne hne]
      · intro hne
        rw [ht_hd_ne hne]
      · intro hne
        rw [ht_p_ne hne]
      · intro j hjF hj1 hj2
        exact ht_unch j hj2 (fun hh => hiF (hh ▸ hjF)) hj1
  · rw [ht]
  · rw [ht]
    show u4.oldest = some p
    rw [hu4, updNewer_oldest, hu3, updNewer_oldest, hu2, updOlder_oldest, hu1, updOlder_oldest]
  · rw [ht]
    show u4.nodeMap = s.nodeMap
    rw [hu4, updNewer_nodeMap, hu3, updNewer_nodeMap, hu2, updOlder_nodeMap, hu1,
      updOlder_nodeMap]
  · rw [ht]
    show u4.nodes.length = s.nodes.length
    exact hu4len
  · intro j
    constructor
    · rw [htat, hu4, key_nodeAt_updNewer, hu3, key_nodeAt_updNewer, hu2, key_nodeAt_updOlder,
        hu1, key_nodeAt_updOlder, hbat]
    · rw [htat, hu4, value_nodeAt_updNewer, hu3, value_nodeAt_updNewer, hu2,
        value_nodeAt_updOlder, hu1, value_nodeAt_updOlder, hbat]

end PromoteLemmas

theorem promoteMiddle_spec {s : Lru K V} {F B : List Nat} {i hd p q : Nat}
    (hF : dseg s none F (some i)) (hB : dseg s (some i) B none)
    (hin : (nodeAt s i).newer = some p) (hio : (nodeAt s i).older = some q)
    (hnw : s.newest = some hd)
    (hhd : headOr F none = some hd) (hplast : lastOr F none = some p)
    (hqB : headOr B none = some q)
    (hndF : F.Nodup) (hndB : B.Nodup) (hdisj : ∀ x ∈ F, x ∉ B)
    (hiF : i ∉ F) (hiB : i ∉ B) (hpF : p ∈ F)
    (hb : ∀ j ∈ F, j < s.nodes.length) (hbB : ∀ j ∈ B, j < s.nodes.length)
    (hi : i < s.nodes.length) :
    dseg (promoteMiddle s i) none (i :: (F ++ B)) none ∧
    (promoteMiddle s i).newest = some i ∧
    (promoteMiddle s i).oldest = s.oldest ∧
    (promoteMiddle s i).nodeMap = s.nodeMap ∧
    (promoteMiddle s i).nodes.length = s.nodes.length ∧
    (∀ j, (nodeAt (promoteMiddle s i) j).key = (nodeAt s j).key ∧
      (nodeAt (promoteMiddle s i) j).value = (nodeAt s j).value) := by
  have hFne : F ≠ [] := headOr_ne_nil hhd
  have hBne : B ≠ [] := headOr_ne_nil hqB
  have hqmem : q ∈ B := by
    cases B with
    | nil => exact absurd rfl hBne
    | cons a t =>
      rw [headOr_cons] at hqB
      exact (Option.some.inj hqB) ▸ List.mem_cons_self a t
  have hhdF : hd ∈ F := by
    cases F with
    | nil => exact absurd rfl hFne
    | cons a t =>
      rw [headOr_cons] at hhd
      exact (Option.some.inj hhd) ▸ List.mem_cons_self a t
  obtain ⟨lb, hlb, hlbB⟩ := lastOr_mem B none hBne
  have hip : i ≠ p := fun hh => hiF (hh ▸ hpF)
  have hiq : i ≠ q := fun hh => hiB (hh ▸ hqmem)
  have hihd : i ≠ hd := fun hh => hiF (hh ▸ hhdF)
  have hilb : i ≠ lb := fun hh => hiB (hh ▸ hlbB)
  have hpq : p ≠ q := fun hh => hdisj p hpF (hh ▸ hqmem)
  have hhdq : hd ≠ q := fun hh => hdisj hd hhdF (hh ▸ hqmem)
  have hplb : p ≠ lb := fun hh => hdisj p hpF (hh ▸ hlbB)
  have hhdlb : hd ≠ lb := fun hh => hdisj hd hhdF (hh ▸ hlbB)
  have hplt : p < s.nodes.length := hb p hpF
  have hhdlt : hd < s.nodes.length := hb hd hhdF
  have hqlt : q < s.nodes.length := hbB q hqmem
  have hv1i : nodeAt (updNewer s q (some p)) i = nodeAt s i :=
    nodeAt_updNewer_ne s q (some p) hiq
  have ht : promoteMiddle s i =
      { updNewer (updNewer (updOlder (updOlder (updNewer s q (some p)) p (some q)) i (some hd))
          i none) hd (some i) with newest := some i } := by
    simp only [promoteMiddle, hio, hin, hv1i, hnw, updOlder_newest, updNewer_newest]
  set v1 := updNewer s q (some p) with hv1
  set v2 := updOlder v1 p (some q) with hv2
  set v3 := updOlder v2 i (some hd) with hv3
  set v4 := updNewer v3 i none with hv4
  set v5 := updNewer v4 hd (some i) with hv5
  have hv1len : v1.nodes.length = s.nodes.length := by rw [hv1, updNewer_length]
  have hv2len : v2.nodes.length = s.nodes.length := by rw [hv2, updOlder_length, hv1len]
  have hv3len : v3.nodes.length = s.nodes.length := by rw [hv3, updOlder_length, hv2len]
  have hv4len : v4.nodes.length = s.nodes.length := by rw [hv4, updNewer_length, hv3len]
  have hv5len : v5.nodes.length = s.nodes.length := by rw [hv5, updNewer_length, hv4len]
  have htat : ∀ j, nodeAt (promoteMiddle s i) j = nodeAt v5 j := by
    intro j
    rw [ht]
    rfl
  have hv1ne : ∀ j, j ≠ q → nodeAt v1 j = nodeAt s j := by
    intro j hj
    rw [hv1, nodeAt_updNewer_ne s q (some p) hj]
  have hv1q : nodeAt v1 q = { nodeAt s q with newer := some p } := by
    rw [hv1, nodeAt_updNewer_self s q (some p) hqlt]
  have hv2ne : ∀ j, j ≠ p → nodeAt v2 j = nodeAt v1 j := by
    intro j hj
    rw [hv2, nodeAt_updOlder_ne v1 p (some q) hj]
  have hv2p : nodeAt v2 p = { nodeAt s p with older := some q } := by
    rw [hv2, nodeAt_updOlder_self v1 p (some q) (hv1len ▸ hplt), hv1ne p hpq]
  have hv3ne : ∀ j, j ≠ i → nodeAt v3 j = nodeAt v2 j := by
    intro j hj
    rw [hv3, nodeAt_updOlder_ne v2 i (some hd) hj]
  have hv3i : nodeAt v3 i = { nodeAt s i with older := some hd } := by
    rw [hv3, nodeAt_updOlder_self v2 i (some hd) (hv2len ▸ hi), hv2ne i hip, hv1ne i hiq]
  have hv4ne : ∀ j, j ≠ i → nodeAt v4 j = nodeAt v3 j := by
    intro j hj
    rw [hv4, nodeAt_updNewer_ne v3 i none hj]
  have hv4i : nodeAt v4 i = { nodeAt s i with older := some hd, newer := none } := by
    rw [hv4, nodeAt_updNewer_self v3 i none (hv3len ▸ hi), hv3i]
  have hv5ne : ∀ j, j ≠ hd → nodeAt v5 j = nodeAt v4 j := by
    intro j hj
    rw [hv5, nodeAt_updNewer_ne v4 hd (some i) hj]
  have hv5hd : nodeAt v5 hd = { nodeAt v4 hd with newer := some i } := by
    rw [hv5, nodeAt_updNewer_self v4 hd (some i) (hv4len ▸ hhdlt)]
  have ht_i : nodeAt (promoteMiddle s i) i =
      { nodeAt s i with older := some hd, newer := none } := by
    rw [htat, hv5ne i hihd, hv4i]
  have ht_q : nodeAt (promoteMiddle s i) q = { nodeAt s q with newer := some p } := by
    rw [htat, hv5ne q (Ne.symm hhdq), hv4ne q (Ne.symm hiq), hv3ne q (Ne.symm hiq),
      hv2ne q (Ne.symm hpq), hv1q]
  have ht_unch : ∀ j, j ≠ q → j ≠ p → j ≠ i → j ≠ hd →
      nodeAt (promoteMiddle s i) j = nodeAt s j := by
    intro j h1 h2 h3 h4
    rw [htat, hv5ne j h4, hv4ne j h3, hv3ne j h3, hv2ne j h2, hv1ne j h1]
  have ht_hd_ne : hd ≠ p → nodeAt (promoteMiddle s i) hd =
      { nodeAt s hd with newer := some i } := by
    intro hne
    rw [htat, hv5hd, hv4ne hd (Ne.symm hihd), hv3ne hd (Ne.symm hihd), hv2ne hd hne,
      hv1ne hd hhdq]
  have ht_p_ne : hd ≠ p → nodeAt (promoteMiddle s i) p =
      { nodeAt s p with older := some q } := by
    intro hne
    rw [htat, hv5ne p (fun hh => hne hh.symm), hv4ne p (Ne.symm hip), hv3ne p (Ne.symm hip),
      hv2p]
  have ht_hdp : hd = p → nodeAt (promoteMiddle s i) hd =
      { nodeAt s hd with older := some q, newer := some i } := by
    intro heq
    rw [htat, hv5hd, hv4ne hd (Ne.symm hihd), hv3ne hd (Ne.symm hihd), heq, hv2p, ← heq]
  have ht_lb : nodeAt (promoteMiddle s i) lb =
      { nodeAt s lb with newer := (nodeAt (promoteMiddle s i) lb).newer } := by
    by_cases hlbq : lb = q
    · rw [hlbq, ht_q]
    · rw [ht_unch lb hlbq (Ne.symm hplb) (Ne.symm hilb) (Ne.symm hhdlb)]
  refine ⟨?_, ?_, ?_, ?_, ?_, ?_⟩
  · refine ⟨?_, ?_, ?_⟩
    · rw [ht_i]
    · rw [ht_i]
      show some hd = headOr (F ++ B) none
      rw [headOr_append]
      cases F with
      | nil => exact absurd rfl hFne
      | cons a t =>
        rw [headOr_cons] at hhd ⊢
        exact hhd.symm
    · refine dseg_append.mpr ⟨?_, ?_⟩
      · rw [hqB]
        refine dseg_relink_ends hFne hndF hhd hplast hF ?_ ?_ ?_ ?_ ?_
        · by_cases hne : hd = p
          · rw [ht_hdp hne]
          · rw [ht_hd_ne hne]
        · by_cases hne : hd = p
          · rw [← hne, ht_hdp hne]
          · rw [ht_p_ne hne]
        · intro hne
          rw [ht_hd_ne hne]
        · intro hne
          rw [ht_p_ne hne]
        · intro j hjF hj1 hj2
          exact ht_unch j (fun hh => hdisj j hjF (hh ▸ hqmem)) hj2
            (fun hh => hiF (hh ▸ hjF)) hj1
      · rw [lastOr_indep F (some i) none hFne, hplast]
        refine dseg_relink_ends hBne hndB hqB hlb hB ?_ ?_ ?_ ?_ ?_
        · rw [ht_q]
        · have hlbold : (nodeAt s lb).older = none := dseg_last_older hB hlb
          rw [ht_lb]
          exact hlbold
        · intro hne
          rw [ht_q]
        · intro hne
          by_cases hlbq : lb = q
          · exact absurd hlbq.symm hne
          · rw [ht_unch lb hlbq (Ne.symm hplb) (Ne.symm hilb) (Ne.symm hhdlb)]
        · intro j hjB hj1 hj2
          have hjF : j ∉ F := fun hh => hdisj j hh hjB
          exact ht_unch j hj1 (fun hh => hjF (hh ▸ hpF)) (fun hh => hiB (hh ▸ hjB))
            (fun hh => hjF (hh ▸ hhdF))
  · rw [ht]
  · rw [ht]
    show v5.oldest = s.oldest
    rw [hv5, updNewer_oldest, hv4, updNewer_oldest, hv3, updOlder_oldest, hv2,
      updOlder_oldest, hv1, updNewer_oldest]
  · rw [ht]
    show v5.nodeMap = s.nodeMap
    rw [hv5, updNewer_nodeMap, hv4, updNewer_nodeMap, hv3, updOlder_nodeMap, hv2,
      updOlder_nodeMap, hv1, updNewer_nodeMap]
  · rw [ht]
    show v5.nodes.length = s.nodes.length
    exact hv5len
  · intro j
    constructor
    · rw [htat, hv5, key_nodeAt_updNewer, hv4, key_nodeAt_updNewer, hv3, key_nodeAt_updOlder,
        hv2, key_nodeAt_updOlder, hv1, key_nodeAt_updNewer]
    · rw [htat, hv5, value_nodeAt_updNewer, hv4, value_nodeAt_updNewer, hv3,
        value_nodeAt_updOlder, hv2, value_nodeAt_updOlder, hv1, value_nodeAt_updNewer]

section GetLemmas

theorem lastOr_eq_concat : ∀ {l : List Nat} {x : Nat},
    lastOr l none = some x → ∃ F, l = F ++ [x] := by
  intro l
  induction l with
  | nil => intro x h; cases h
  | cons a t ih =>
    intro x h
    cases t with
    | nil =>
      rw [lastOr_cons, lastOr_nil] at h
      exact ⟨[], by simp [Option.some.inj h]⟩
    | cons b u =>
      rw [lastOr_cons, lastOr_indep (b :: u) (some a) none (by simp)] at h
      obtain ⟨F, hF⟩ := ih h
      exact ⟨a :: F, by rw [hF]; rfl⟩

theorem abs_get {s : Lru K V} {ids : List Nat} {k : K} {i : Nat}
    (h : Abs s ids) (hm : mapGet s.nodeMap k = some i) :
    (s.get k).1 = some ((nodeAt s i).value) ∧
    Abs (s.get k).2 (i :: ids.erase i) ∧
    (∀ j, (nodeAt (s.get k).2 j).key = (nodeAt s j).key ∧
      (nodeAt (s.get k).2 j).value = (nodeAt s j).value) ∧
    (s.get k).2.nodeMap = s.nodeMap ∧
    (s.get k).2.nodes.length = s.nodes.length := by
  have himem : i ∈ ids := ((abs_mapGet h).mp hm).1
  obtain ⟨hch, hnew, hold, hnd, hb, hm1, hm2, hkn, hsz⟩ := h
  have hilt : i < s.nodes.length := hb i himem
  by_cases h1 : s.newest = some i
  · -- the node is already the newest: no relinking
    have hget : s.get k = (some ((nodeAt s i).value), s) := by
      simp only [Lru.get, hm]
      rw [if_pos h1]
    obtain ⟨t, rfl⟩ : ∃ t, ids = i :: t := by
      cases ids with
      | nil => cases himem
      | cons a u =>
        rw [hnew, headOr_cons] at h1
        exact ⟨u, by rw [Option.some.inj h1]⟩
    rw [hget]
    refine ⟨rfl, ?_, fun j => ⟨rfl, rfl⟩, rfl, rfl⟩
    rw [List.erase_cons_head]
    exact ⟨hch, hnew, hold, hnd, hb, hm1, hm2, hkn, hsz⟩
  · by_cases h2 : s.oldest = some i
    · -- the node is the oldest: promoteOldest
      have hget : s.get k = (some ((nodeAt s i).value), promoteOldest s i) := by
        simp only [Lru.get, hm]
        rw [if_neg h1, if_pos h2]
      obtain ⟨F, rfl⟩ : ∃ F, ids = F ++ [i] := lastOr_eq_concat (by rw [← hold]; exact h2)
      have hFne : F ≠ [] := by
        rintro rfl
        rw [hnew] at h1
        exact h1 rfl
      have hiF : i ∉ F := by
        intro hh
        exact (List.nodup_append.mp hnd).2.2 hh (List.mem_singleton_self i)
      have hdec := dseg_append.mp hch
      have hF : dseg s none F (some i) := hdec.1
      obtain ⟨hinew, hiold, -⟩ := hdec.2
      obtain ⟨p, hplast, hpF⟩ := lastOr_mem F none hFne
      have hin : (nodeAt s i).newer = some p := by
        rw [hinew]
        exact hplast
      obtain ⟨hd, F2, rfl⟩ : ∃ hd F2, F = hd :: F2 := by
        cases F with
        | nil => exact absurd rfl hFne
        | cons a t => exact ⟨a, t, rfl⟩
      have hnw : s.newest = some hd := by
        rw [hnew]
        rfl
      have hndF : (hd :: F2).Nodup := (List.nodup_append.mp hnd).1
      have hbF : ∀ j ∈ hd :: F2, j < s.nodes.length :=
        fun j hj => hb j (List.mem_append_left _ hj)
      obtain ⟨hchain, hnw2, hold2, hmap2, hlen2, hkv2⟩ :=
        promoteOldest_spec hF hin hiold hnw rfl hplast hndF hiF hpF hbF hilt
      rw [hget]
      have hmemiff : ∀ j, j ∈ i :: hd :: F2 ↔ j ∈ (hd :: F2) ++ [i] := by
        intro j
        exact (List.perm_append_singleton i (hd :: F2)).mem_iff.symm
      refine ⟨rfl, ?_, fun j => hkv2 j, hmap2, hlen2⟩
      rw [List.erase_append_right _ hiF, List.erase_cons_head, List.append_nil]
      refine ⟨hchain, hnw2, ?_, ?_, ?_, ?_, ?_, ?_, ?_⟩
      · rw [hold2, lastOr_cons, lastOr_indep (hd :: F2) (some i) none (by simp), hplast]
      · rw [List.nodup_cons]
        exact ⟨hiF, hndF⟩
      · intro j hj
        rw [hlen2]
        exact hb j ((hmemiff j).mp hj)
      · intro x hx
        rw [hmap2] at hx
        obtain ⟨hx1, hx2⟩ := hm1 x hx
        refine ⟨(hmemiff x.2).mpr hx1, ?_⟩
        rw [(hkv2 x.2).1]
        exact hx2
      · intro j hj
        rw [hmap2, (hkv2 j).1]
        exact hm2 j ((hmemiff j).mp hj)
      · rw [hmap2]
        exact hkn
      · rw [hmap2, hsz]
        simp
    · -- the node is in the middle: promoteMiddle
      have hget : s.get k = (some ((nodeAt s i).value), promoteMiddle s i) := by
        simp only [Lru.get, hm]
        rw [if_neg h1, if_neg h2]
      obtain ⟨F, B, rfl⟩ := List.append_of_mem himem
      have hFne : F ≠ [] := by
        rintro rfl
        rw [hnew] at h1
        exact h1 rfl
      have hBne : B ≠ [] := by
        rintro rfl
        rw [hold, lastOr_concat] at h2
        exact h2 rfl
      have hnodups := List.nodup_append.mp hnd
      have hndF : F.Nodup := hnodups.1
      have hndB : B.Nodup := (List.nodup_cons.mp hnodups.2.1).2
      have hiB : i ∉ B := (List.nodup_cons.mp hnodups.2.1).1
      have hiF : i ∉ F := fun hh => hnodups.2.2 hh (List.mem_cons_self _ _)
      have hdisj : ∀ x ∈ F, x ∉ B :=
        fun x hx hxB => hnodups.2.2 hx (List.mem_cons_of_mem _ hxB)
      have hdec := dseg_append.mp hch
      have hF : dseg s none F (headOr (i :: B) none) := hdec.1
      rw [headOr_cons] at hF
      obtain ⟨hinew, hiold, hBch⟩ := hdec.2
      obtain ⟨p, hplast, hpF⟩ := lastOr_mem F none hFne
      have hin : (nodeAt s i).newer = some p := by
        rw [hinew]
        exact hplast
      obtain ⟨q, B2, rfl⟩ : ∃ q B2, B = q :: B2 := by
        cases B with
        | nil => exact absurd rfl hBne
        | cons a t => exact ⟨a, t, rfl⟩
      have hio : (nodeAt s i).older = some q := hiold
      obtain ⟨hd, F2, rfl⟩ : ∃ hd F2, F = hd :: F2 := by
        cases F with
        | nil => exact absurd rfl hFne
        | cons a t => exact ⟨a, t, rfl⟩
      have hnw : s.newest = some hd := by
        rw [hnew]
        rfl
      have hbF : ∀ j ∈ hd :: F2, j < s.nodes.length :=
        fun j hj => hb j (List.mem_append_left _ hj)
      have hbB : ∀ j ∈ q :: B2, j < s.nodes.length :=
        fun j hj => hb j (List.mem_append_right _ (List.mem_cons_of_mem _ hj))
      obtain ⟨hchain, hnw2, hold2, hmap2, hlen2, hkv2⟩ :=
        promoteMiddle_spec hF hBch hin hio hnw rfl hplast rfl hndF hndB hdisj hiF hiB
          hpF hbF hbB hilt
      rw [hget]
      have hmemiff : ∀ j, j ∈ i :: ((hd :: F2) ++ (q :: B2)) ↔
          j ∈ (hd :: F2) ++ i :: (q :: B2) := by
        intro j
        exact (@List.perm_middle _ i (hd :: F2) (q :: B2)).mem_iff.symm
      refine ⟨rfl, ?_, fun j => hkv2 j, hmap2, hlen2⟩
      rw [List.erase_append_right _ hiF, List.erase_cons_head]
      refine ⟨hchain, hnw2, ?_, ?_, ?_, ?_, ?_, ?_, ?_⟩
      · rw [hold2, hold, lastOr_cons, lastOr_append, lastOr_append, lastOr_cons,
          lastOr_indep (q :: B2) _ _ (by simp), lastOr_indep (q :: B2) _ (lastOr (hd :: F2) none) (by simp)]
      · rw [List.nodup_middle] at hnd
        exact hnd
      · intro j hj
        rw [hlen2]
        exact hb j ((hmemiff j).mp hj)
      · intro x hx
        rw [hmap2] at hx
        obtain ⟨hx1, hx2⟩ := hm1 x hx
        refine ⟨(hmemiff x.2).mpr hx1, ?_⟩
        rw [(hkv2 x.2).1]
        exact hx2
      · intro j hj
        rw [hmap2, (hkv2 j).1]
        exact hm2 j ((hmemiff j).mp hj)
      · rw [hmap2]
        exact hkn
      · rw [hmap2, hsz]
        simp only [List.length_append, List.length_cons]
        omega

end GetLemmas

section KeyEraseLemmas

theorem map_erase_of_inj {l : List Nat} {f : Nat → K} {i : Nat}
    (huniq : ∀ j ∈ l, f j = f i → j = i) :
    (l.erase i).map f = (l.map f).erase (f i) := by
  induction l with
  | nil => rfl
  | cons a t ih =>
    by_cases ha : a = i
    · subst ha
      rw [List.erase_cons_head, List.map_cons, List.erase_cons_head]
    · have hfa : f a ≠ f i := fun hh => ha (huniq a (List.mem_cons_self _ _) hh)
      rw [List.erase_cons_tail (by simpa using ha), List.map_cons, List.map_cons,
        List.erase_cons_tail (by simpa using hfa),
        ih (fun j hj hf => huniq j (List.mem_cons_of_mem _ hj) hf)]

end KeyEraseLemmas

/-! ### JavaScript number evaluation lemmas -/

section JsNumLemmas

theorem jsDiv_fin_fin {a b : ℚ} (hb : b ≠ 0) :
    JsNum.div (JsNum.fin a) (JsNum.fin b) = JsNum.fin (a / b) := by
  simp [JsNum.div, hb]

theorem jsLtB_fin_fin (a b : ℚ) :
    JsNum.ltB (JsNum.fin a) (JsNum.fin b) = decide (a < b) := rfl

theorem jsLeB_fin_fin (a b : ℚ) :
    JsNum.leB (JsNum.fin a) (JsNum.fin b) = decide (a ≤ b) := rfl

theorem jsMin_fin_fin (a b : ℚ) :
    JsNum.min (JsNum.fin a) (JsNum.fin b) = JsNum.fin (Min.min a b) := rfl

theorem loopIters_top_nan (b : JsNum) : loopIters JsNum.nan b = [] := by
  cases b <;> rfl

theorem loopIters_bot_nan (a : JsNum) : loopIters a JsNum.nan = [] := by
  cases a <;> rfl

theorem loopIters_fin_nonpos {a b : ℚ} (h : b ≤ a) :
    loopIters (JsNum.fin a) (JsNum.fin b) = [] := by
  simp only [loopIters]
  rw [Int.toNat_of_nonpos (Int.ceil_le.mpr (by exact_mod_cast sub_nonpos.mpr h))]
  rfl

theorem jsFloor_nan : JsNum.floor JsNum.nan = JsNum.nan := rfl

theorem jsFloor_inf : JsNum.floor JsNum.inf = JsNum.inf := rfl

theorem jsCeil_nan : JsNum.ceil JsNum.nan = JsNum.nan := rfl

theorem jsAdd_nan_left (b : JsNum) : JsNum.add JsNum.nan b = JsNum.nan := by
  cases b <;> rfl

theorem jsAdd_inf_fin (b : ℚ) : JsNum.add JsNum.inf (JsNum.fin b) = JsNum.inf := rfl

theorem jsSub_nan_left (b : JsNum) : JsNum.sub JsNum.nan b = JsNum.nan := by
  cases b <;> rfl

theorem jsSub_nan_right (a : JsNum) : JsNum.sub a JsNum.nan = JsNum.nan := by
  cases a <;> rfl

theorem jsSub_inf_inf : JsNum.sub JsNum.inf JsNum.inf = JsNum.nan := rfl

theorem jsMax_nan_right (a : JsNum) : JsNum.max a JsNum.nan = JsNum.nan := by
  cases a <;> rfl

theorem jsMax_fin_inf (a : ℚ) : JsNum.max (JsNum.fin a) JsNum.inf = JsNum.inf := rfl

theorem jsMin_nan_left (b : JsNum) : JsNum.min JsNum.nan b = JsNum.nan := by
  cases b <;> rfl

theorem jsDiv_nan_right (a : JsNum) : JsNum.div a JsNum.nan = JsNum.nan := by
  cases a <;> rfl

theorem jsDiv_fin_inf (a : ℚ) : JsNum.div (JsNum.fin a) JsNum.inf = JsNum.fin 0 := rfl

theorem jsDiv_zero_zero : JsNum.div (JsNum.fin 0) (JsNum.fin 0) = JsNum.nan := by
  decide

theorem jsDiv_fin_zero_pos {a : ℚ} (ha : 0 < a) :
    JsNum.div (JsNum.fin a) (JsNum.fin 0) = JsNum.inf := by
  simp [JsNum.div, ne_of_gt ha, not_lt.mpr ha.le]

/-- `gridTop` evaluated when `cellHeight` is nonzero and `visibleGridHeight`
finite. -/
theorem windowTop_eval {st : GridState} {g : ℚ}
    (hvgh : st.visibleGridHeight = JsNum.fin g) (hch : st.cellHeight ≠ 0) :
    windowTop st =
      JsNum.fin (Max.max 0 (((⌊st.scrollTop / st.cellHeight⌋ : ℤ) : ℚ) - g)) := by
  rw [windowTop, hvgh, jsDiv_fin_fin hch]
  rfl

/-- `gridBottom` evaluated when `cellHeight` is nonzero and
`visibleGridHeight` finite. -/
theorem windowBottom_eval {st : GridState} {g : ℚ}
    (hvgh : st.visibleGridHeight = JsNum.fin g) (hch : st.cellHeight ≠ 0) :
    windowBottom st = JsNum.min st.gridRowCount
      (JsNum.fin (((⌈(st.scrollTop + st.viewportH) / st.cellHeight⌉ : ℤ) : ℚ) + g)) := by
  rw [windowBottom, hvgh, jsDiv_fin_fin hch]
  rfl

end JsNumLemmas

/-! ### The node map across cache operations, without the invariant -/

section NodeMapLemmas

theorem mem_mapSet {m : List (K × Nat)} {k : K} {i : Nat} {p : K × Nat}
    (hp : p ∈ mapSet m k i) : p = (k, i) ∨ p ∈ m := by
  induction m with
  | nil =>
    rw [mapSet] at hp
    exact Or.inl (List.mem_singleton.mp hp)
  | cons q t ih =>
    obtain ⟨k2, i2⟩ := q
    rw [mapSet] at hp
    by_cases h : k2 = k
    · rw [if_pos h] at hp
      rcases List.mem_cons.mp hp with h1 | h1
      · exact Or.inl h1
      · exact Or.inr (List.mem_cons_of_mem _ h1)
    · rw [if_neg h] at hp
      rcases List.mem_cons.mp hp with h1 | h1
      · exact Or.inr (h1 ▸ List.mem_cons_self _ _)
      · rcases ih h1 with h2 | h2
        · exact Or.inl h2
        · exact Or.inr (List.mem_cons_of_mem _ h2)

theorem promoteOldest_nodeMap (s : Lru K V) (i : Nat) :
    (promoteOldest s i).nodeMap = s.nodeMap := by
  simp only [promoteOldest]
  split <;> split <;> simp

theorem promoteMiddle_nodeMap (s : Lru K V) (i : Nat) :
    (promoteMiddle s i).nodeMap = s.nodeMap := by
  simp only [promoteMiddle]
  split <;> split <;> (try split) <;> simp

/-- `Lru.get` never changes the key map (it only relinks nodes). -/
theorem get_nodeMap (s : Lru K V) (k : K) : (s.get k).2.nodeMap = s.nodeMap := by
  cases hm : mapGet s.nodeMap k with
  | none => simp [Lru.get, hm]
  | some i =>
    simp only [Lru.get, hm]
    by_cases h1 : s.newest = some i
    · rw [if_pos h1]
    · rw [if_neg h1]
      by_cases h2 : s.oldest = some i
      · rw [if_pos h2]
        exact promoteOldest_nodeMap s i
      · rw [if_neg h2]
        exact promoteMiddle_nodeMap s i

/-- `Lru.insert` sets the key map entry to the fresh arena index. -/
theorem insert_nodeMap (s : Lru K V) (k : K) (v : V) :
    (s.insert k v).nodeMap = mapSet s.nodeMap k s.nodes.length := by
  cases hw : s.newest with
  | none => simp only [Lru.insert, hw]
  | some w => simp only [Lru.insert, hw, updNewer_nodeMap]

theorem evictTail_nodeMap (s : Lru K V) (oid : Nat) :
    (evictTail s oid).nodeMap = mapDelete s.nodeMap (nodeAt s oid).key := by
  simp only [evictTail]
  split <;> simp

theorem evictLoop_nodeMap_subset {p : K × Nat} :
    ∀ (c : Nat) (s : Lru K V), p ∈ (evictLoop c s).2.nodeMap → p ∈ s.nodeMap := by
  intro c
  induction c with
  | zero => intro s hp; exact hp
  | succ n ih =>
    intro s hp
    cases ho : s.oldest with
    | none =>
      rw [evictLoop_oldest_none ho] at hp
      exact hp
    | some oid =>
      simp only [evictLoop, ho] at hp
      cases hn : s.nodes[oid]? with
      | none =>
        simp only [hn] at hp
        exact hp
      | some onode =>
        simp only [hn] at hp
        have h2 := ih (evictTail s oid) hp
        rw [evictTail_nodeMap] at h2
        exact mapDelete_sublist.subset h2

/-- `Lru.evict` only removes map entries, whatever the state. -/
theorem evict_nodeMap_subset {s : Lru K V} {c : Nat} {p : K × Nat}
    (hp : p ∈ (s.evict c).2.nodeMap) : p ∈ s.nodeMap :=
  evictLoop_nodeMap_subset c s hp

end NodeMapLemmas

/-! ### The materialization pass -/

section GridLemmas

theorem foldl_preserve {α β γ : Type} (f : β → α → β) (g : β → γ)
    (h : ∀ b a, g (f b a) = g b) : ∀ (l : List α) (b : β), g (l.foldl f b) = g b := by
  intro l
  induction l with
  | nil => intro b; rfl
  | cons x t ih => intro b; rw [List.foldl_cons, ih, h]

theorem getCell_mcec (st : GridState) :
    (getCell st).2.maximumCachedElementCount = st.maximumCachedElementCount := by
  rw [getCell]
  split
  · split <;> rfl
  · rfl

theorem getCell_vec (st : GridState) :
    (getCell st).2.virtualElementCount = st.virtualElementCount := by
  rw [getCell]
  split
  · split <;> rfl
  · rfl

/-- Whatever branch `getCell` takes, the cache's key map only shrinks. -/
theorem getCell_keys {st : GridState} {p : ℚ × Nat}
    (hp : p ∈ (getCell st).2.elementCache.nodeMap) : p ∈ st.elementCache.nodeMap := by
  rw [getCell] at hp
  split at hp
  · split at hp
    · rename_i e es c2 heq
      have h2 : (st.elementCache.evict 1).2 = c2 := by rw [heq]
      have h3 : p ∈ (st.elementCache.evict 1).2.nodeMap := by
        rw [h2]
        exact hp
      exact evict_nodeMap_subset h3
    · rename_i c2 heq
      have h2 : (st.elementCache.evict 1).2 = c2 := by rw [heq]
      have h3 : p ∈ (st.elementCache.evict 1).2.nodeMap := by
        rw [h2]
        exact hp
      exact evict_nodeMap_subset h3
  · exact hp

theorem cellStep_mcec (st : GridState) (idx : ℚ) :
    (cellStep st idx).maximumCachedElementCount = st.maximumCachedElementCount := by
  rw [cellStep]
  split
  · split
    · rfl
    · exact getCell_mcec { st with elementCache := (st.elementCache.get idx).2 }
  · rfl

theorem cellStep_vec (st : GridState) (idx : ℚ) :
    (cellStep st idx).virtualElementCount = st.virtualElementCount := by
  rw [cellStep]
  split
  · split
    · rfl
    · exact getCell_vec { st with elementCache := (st.elementCache.get idx).2 }
  · rfl

/-- A key present after one loop-body step was present before, or is the
in-range item index the step materialized. -/
theorem cellStep_keys {st : GridState} {idx k : ℚ}
    (hk : k ∈ (cellStep st idx).elementCache.nodeMap.map Prod.fst) :
    k ∈ st.elementCache.nodeMap.map Prod.fst ∨ k < st.virtualElementCount := by
  by_cases hlt : idx < st.virtualElementCount
  · rw [cellStep, if_pos hlt] at hk
    cases hg : (st.elementCache.get idx).1 with
    | some v =>
      simp only [hg] at hk
      left
      rwa [get_nodeMap] at hk
    | none =>
      simp only [hg] at hk
      rw [insert_nodeMap] at hk
      rcases List.mem_map.mp hk with ⟨p, hpmem, hpk⟩
      rcases mem_mapSet hpmem with hp1 | hp1
      · right
        rw [← hpk, hp1]
        exact hlt
      · left
        have hp2 : p ∈ (st.elementCache.get idx).2.nodeMap := getCell_keys hp1
        rw [get_nodeMap] at hp2
        rw [← hpk]
        exact List.mem_map_of_mem Prod.fst hp2
  · rw [cellStep, if_neg hlt] at hk
    exact Or.inl hk

theorem foldl_cellStep_vec (f : ℚ → ℚ) (xs : List ℚ) (st : GridState) :
    (xs.foldl (fun acc x => cellStep acc (f x)) st).virtualElementCount =
      st.virtualElementCount :=
  foldl_preserve _ (fun g : GridState => g.virtualElementCount)
    (fun b2 x => cellStep_vec b2 (f x)) xs st

theorem foldl_cellStep_keys (f : ℚ → ℚ) :
    ∀ (xs : List ℚ) (st : GridState) (k : ℚ),
      k ∈ ((xs.foldl (fun acc x => cellStep acc (f x)) st).elementCache.nodeMap.map
        Prod.fst) →
      k ∈ st.elementCache.nodeMap.map Prod.fst ∨ k < st.virtualElementCount := by
  intro xs
  induction xs with
  | nil => intro st k hk; exact Or.inl hk
  | cons x t ih =>
    intro st k hk
    rw [List.foldl_cons] at hk
    rcases ih (cellStep st (f x)) k hk with h1 | h1
    · exact cellStep_keys h1
    · right
      rwa [cellStep_vec] at h1

theorem passCells_keys (xs : List ℚ) (vgw : ℚ) :
    ∀ (ys : List ℚ) (st : GridState) (k : ℚ),
      k ∈ (passCells ys xs vgw st).elementCache.nodeMap.map Prod.fst →
      k ∈ st.elementCache.nodeMap.map Prod.fst ∨ k < st.virtualElementCount := by
  intro ys
  induction ys with
  | nil => intro st k hk; exact Or.inl hk
  | cons y t ih =>
    intro st k hk
    rw [passCells, List.foldl_cons] at hk
    have hk2 : k ∈ (passCells t xs vgw
        (xs.foldl (fun acc2 x => cellStep acc2 (y * vgw + x)) st)).elementCache.nodeMap.map
          Prod.fst := by
      rw [passCells]
      exact hk
    rcases ih _ k hk2 with h1 | h1
    · exact foldl_cellStep_keys (fun x => y * vgw + x) xs st k h1
    · right
      rwa [foldl_cellStep_vec (fun x => y * vgw + x) xs st] at h1

/-- Every key cached after a materialization pass was cached before, or is
an item index strictly below `virtualElementCount`. -/
theorem virtualizeCells_keys {st : GridState} {b : Bool} {k : ℚ}
    (hk : k ∈ (virtualizeCells st b).elementCache.nodeMap.map Prod.fst) :
    k ∈ st.elementCache.nodeMap.map Prod.fst ∨ k < st.virtualElementCount := by
  simp only [virtualizeCells] at hk
  exact passCells_keys _ _ _ st k hk

theorem passCells_mcec (ys xs : List ℚ) (vgw : ℚ) (st : GridState) :
    (passCells ys xs vgw st).maximumCachedElementCount =
      st.maximumCachedElementCount := by
  rw [passCells]
  exact foldl_preserve _ (fun g : GridState => g.maximumCachedElementCount)
    (fun b y => foldl_preserve _ (fun g : GridState => g.maximumCachedElementCount)
      (fun b2 x => cellStep_mcec b2 (y * vgw + x)) xs b) ys st

/-- A materialization pass never recomputes the pool capacity. -/
theorem virtualizeCells_mcec (st : GridState) (b : Bool) :
    (virtualizeCells st b).maximumCachedElementCount =
      st.maximumCachedElementCount := by
  simp only [virtualizeCells]
  exact passCells_mcec _ _ _ _

/-- With a zero cell size the row loop of the pass has no iterations. -/
theorem zeroCell_ys_nil (st : GridState) (hst : 0 ≤ st.scrollTop)
    (hh : 0 ≤ st.viewportH) (hw : 0 ≤ st.viewportW)
    (hzero : st.cellWidth = 0 ∨ st.cellHeight = 0) :
    loopIters (windowTop (setGeometry st)) (windowBottom (setGeometry st)) = [] := by
  by_cases hch : st.cellHeight = 0
  · have hwt : windowTop (setGeometry st) = JsNum.nan := by
      show JsNum.max (JsNum.fin 0)
        (JsNum.sub
          (JsNum.floor (JsNum.div (JsNum.fin st.scrollTop) (JsNum.fin st.cellHeight)))
          (JsNum.add
            (JsNum.floor (JsNum.div (JsNum.fin st.viewportH) (JsNum.fin st.cellHeight)))
            (JsNum.fin 2))) = JsNum.nan
      rw [hch]
      rcases eq_or_lt_of_le hst with hst0 | hst0
      · rw [← hst0, jsDiv_zero_zero, jsFloor_nan, jsSub_nan_left, jsMax_nan_right]
      · rw [jsDiv_fin_zero_pos hst0, jsFloor_inf]
        rcases eq_or_lt_of_le hh with hh0 | hh0
        · rw [← hh0, jsDiv_zero_zero, jsFloor_nan, jsAdd_nan_left, jsSub_nan_right,
            jsMax_nan_right]
        · rw [jsDiv_fin_zero_pos hh0, jsFloor_inf, jsAdd_inf_fin, jsSub_inf_inf,
            jsMax_nan_right]
    rw [hwt]
    exact loopIters_top_nan _
  · have hcw : st.cellWidth = 0 := hzero.resolve_right hch
    rcases eq_or_lt_of_le hw with hw0 | hw0
    · have hgrcn : (setGeometry st).gridRowCount = JsNum.nan := by
        show JsNum.ceil (JsNum.div (JsNum.fin st.virtualElementCount)
          (JsNum.max (JsNum.fin 1)
            (JsNum.floor (JsNum.div (JsNum.fin st.viewportW) (JsNum.fin st.cellWidth)))))
          = JsNum.nan
        rw [hcw, ← hw0, jsDiv_zero_zero, jsFloor_nan, jsMax_nan_right, jsDiv_nan_right,
          jsCeil_nan]
      have hwbn : windowBottom (setGeometry st) = JsNum.nan := by
        rw [windowBottom, hgrcn]
        exact jsMin_nan_left _
      rw [hwbn]
      exact loopIters_bot_nan _
    · have hdivw : JsNum.div (JsNum.fin st.viewportW) (JsNum.fin st.cellWidth)
          = JsNum.inf := by
        rw [hcw]
        exact jsDiv_fin_zero_pos hw0
      have hgrc : (setGeometry st).gridRowCount = JsNum.fin 0 := by
        show JsNum.ceil (JsNum.div (JsNum.fin st.virtualElementCount)
          (JsNum.max (JsNum.fin 1)
            (JsNum.floor (JsNum.div (JsNum.fin st.viewportW) (JsNum.fin st.cellWidth)))))
          = JsNum.fin 0
        rw [hdivw, jsFloor_inf, jsMax_fin_inf, jsDiv_fin_inf]
        simp [JsNum.ceil]
      have hvghraw : (setGeometry st).visibleGridHeight =
          JsNum.fin (((⌊st.viewportH / st.cellHeight⌋ : ℤ) : ℚ) + 2) := by
        show JsNum.add
          (JsNum.floor (JsNum.div (JsNum.fin st.viewportH) (JsNum.fin st.cellHeight)))
          (JsNum.fin 2) = _
        rw [jsDiv_fin_fin hch]
        rfl
      have hwb : windowBottom (setGeometry st) =
          JsNum.fin (Min.min (0 : ℚ)
            (((⌈((setGeometry st).scrollTop + (setGeometry st).viewportH) /
                (setGeometry st).cellHeight⌉ : ℤ) : ℚ) +
              (((⌊st.viewportH / st.cellHeight⌋ : ℤ) : ℚ) + 2))) := by
        rw [windowBottom_eval hvghraw hch, hgrc]
        rfl
      rw [windowTop_eval hvghraw hch, hwb]
      exact loopIters_fin_nonpos (le_trans (min_le_left _ _) (le_max_left _ _))

/-- With a zero cell size a materialization pass is the identity. -/
theorem zeroCell_pass_id (st : GridState) (hst : 0 ≤ st.scrollTop)
    (hh : 0 ≤ st.viewportH) (hw : 0 ≤ st.viewportW)
    (hzero : st.cellWidth = 0 ∨ st.cellHeight = 0) :
    ∀ b : Bool, virtualizeCells (setGeometry st) b = setGeometry st := by
  intro b
  have hys := zeroCell_ys_nil st hst hh hw hzero
  simp only [virtualizeCells]
  rw [hys]
  rfl

end GridLemmas

/-! ## The claims -/

/-- C1: the claimed invariant — after any sequence of operations the
`newest → oldest` traversal visits exactly `size()` nodes and `newest` and
`oldest` are both null when the map is empty, in particular after an `evict`
whose count is at least the cache's size — fails on the code: after
`insert(1)` followed by `evict(1)` the map is empty and `oldest` is null,
but `newest` still references the evicted node, so the traversal visits one
node while `size()` is 0.  The class's own (disabled) debug assertion
`verify()` rejects exactly this state. -/
theorem c1_evict_leaves_stale_newest :
    (((Lru.empty (K := ℕ) (V := ℕ)).insert 1 10).evict 1).2.nodeMap = [] ∧
    (((Lru.empty (K := ℕ) (V := ℕ)).insert 1 10).evict 1).2.oldest = none ∧
    (((Lru.empty (K := ℕ) (V := ℕ)).insert 1 10).evict 1).2.newest = some 0 ∧
    Lru.verify (((Lru.empty (K := ℕ) (V := ℕ)).insert 1 10).evict 1).2 = false := by
  decide

/-- C3: starting from an empty cache, `insert(1); insert(2); insert(3);
get(1); evict(2)` returns the records for keys 2 and 3 in that order
(oldest first); in general, on a cache satisfying the representation
invariant with recency chain `ids` (newest first), `evict(count)` returns
`min(count, size)` entries, exactly the last `count` chain entries in
oldest-first order, and shrinks the size by that amount. -/
theorem c3_evict_oldest_first :
    ((((((Lru.empty (K := ℕ) (V := ℕ)).insert 1 10).insert 2 20).insert 3 30).get 1).2.evict
        2).1.map (fun e => e.key) = [2, 3] ∧
    (∀ (K V : Type) (inst1 : DecidableEq K) (inst2 : Inhabited K) (inst3 : Inhabited V)
      (s : Lru K V) (ids : List Nat) (count : Nat), Abs s ids →
        (s.evict count).1 = (ids.reverse.take count).map
          (fun j => ⟨(nodeAt s j).key, (nodeAt s j).value⟩) ∧
        (s.evict count).1.length = min count s.size ∧
        (s.evict count).2.size = s.size - count) := by
  refine ⟨by decide, ?_⟩
  intro K V inst1 inst2 inst3 s ids count h
  have hsz := h.2.2.2.2.2.2.2.2
  obtain ⟨e1, e2, -, -, -⟩ := evict_spec count s ids h
  refine ⟨e1, ?_, ?_⟩
  · rw [e1, List.length_map, List.length_take, List.length_reverse, Lru.size, hsz]
  · rw [Lru.size, Lru.size, e2, hsz]

/-- C3 witness: the general eviction statement applied to the concrete
two-entry cache `lru2` (chain `[1, 0]`, keys 2 then 1 oldest-first) with
`count = 1`. -/
theorem c3_witness :
    (lru2.evict 1).1 = (([1, 0].reverse.take 1).map
      (fun j => ⟨(nodeAt lru2 j).key, (nodeAt lru2 j).value⟩)) ∧
    (lru2.evict 1).1.length = min 1 lru2.size ∧
    (lru2.evict 1).2.size = lru2.size - 1 :=
  c3_evict_oldest_first.2 ℕ ℕ _ _ _ lru2 [1, 0] 1 (by decide)

/-- C4: on a cache in a valid state (invariant `Abs` with chain `ids`)
holding key `k` at node `i`, calling `get(k)` and then `evict(size() - 1)`
evicts exactly the keys other than `k` (as a multiset), and `k` remains the
sole entry of the cache. -/
theorem c4_get_promotes (K V : Type) [DecidableEq K] [Inhabited K] [Inhabited V]
    (s : Lru K V) (ids : List Nat) (k : K) (i : Nat)
    (habs : Abs s ids) (hmem : mapGet s.nodeMap k = some i) :
    (((s.get k).2.evict ((s.get k).2.size - 1)).1.map (fun e => e.key)).Perm
      ((ids.map (fun j => (nodeAt s j).key)).erase k) ∧
    ((s.get k).2.evict ((s.get k).2.size - 1)).2.nodeMap.map Prod.fst = [k] := by
  have himem : i ∈ ids := ((abs_mapGet habs).mp hmem).1
  have hkey : (nodeAt s i).key = k := ((abs_mapGet habs).mp hmem).2
  have hszids := habs.2.2.2.2.2.2.2.2
  obtain ⟨-, habs2, hkv, hmap, -⟩ := abs_get habs hmem
  set s2 := (s.get k).2 with hs2
  have hsz2 : s2.size = ids.length := by
    rw [Lru.size, hmap, hszids]
  have hlenerase : (ids.erase i).length = ids.length - 1 := List.length_erase_of_mem himem
  have hlen1 : 1 ≤ ids.length := by
    cases ids with
    | nil => cases himem
    | cons a t => simp
  obtain ⟨e1, -, e3, -, e5⟩ := evict_spec (s2.size - 1) s2 (i :: ids.erase i) habs2
  have hcount : s2.size - 1 < (i :: ids.erase i).length := by
    rw [List.length_cons, hlenerase, hsz2]
    omega
  have habs3 := e3 hcount
  have htake1 : (i :: ids.erase i).length - (s2.size - 1) = 1 := by
    rw [List.length_cons, hlenerase, hsz2]
    omega
  rw [htake1] at habs3
  constructor
  · rw [e1]
    have hrev : (i :: ids.erase i).reverse = (ids.erase i).reverse ++ [i] := by simp
    have htakerev : ((i :: ids.erase i).reverse.take (s2.size - 1)) = (ids.erase i).reverse := by
      rw [hrev]
      have hlen : (ids.erase i).reverse.length = s2.size - 1 := by
        rw [List.length_reverse, hlenerase, hsz2]
      rw [← hlen, List.take_left]
    rw [htakerev]
    have hmapeq : ((ids.erase i).reverse.map
          (fun j => (⟨(nodeAt s2 j).key, (nodeAt s2 j).value⟩ : Evicted K V))).map
          (fun e => e.key) =
        (ids.erase i).reverse.map (fun j => (nodeAt s j).key) := by
      rw [List.map_map]
      exact List.map_congr_left (fun j _ => (hkv j).1)
    rw [hmapeq]
    have herase : (ids.erase i).map (fun j => (nodeAt s j).key) =
        (ids.map (fun j => (nodeAt s j).key)).erase k := by
      rw [← hkey]
      exact map_erase_of_inj (fun j hj hf => abs_key_inj habs hj himem hf)
    rw [List.map_reverse, herase]
    exact List.reverse_perm _
  · have hone := habs3.2.2.2.2.2.2.2.2
    have hkeyi : (nodeAt s2 i).key = k := by rw [(hkv i).1, hkey]
    obtain ⟨p, hp1⟩ : ∃ p, (s2.evict (s2.size - 1)).2.nodeMap = [p] := by
      cases hm : (s2.evict (s2.size - 1)).2.nodeMap with
      | nil => rw [hm] at hone; simp at hone
      | cons p rest =>
        cases rest with
        | nil => exact ⟨p, rfl⟩
        | cons q rest2 => rw [hm] at hone; simp at hone
    have hpmem := habs3.2.2.2.2.2.1 p (by rw [hp1]; exact List.mem_singleton_self p)
    have hpi : p.2 = i := List.mem_singleton.mp hpmem.1
    have hporig := e5 p (by rw [hp1]; exact List.mem_singleton_self p)
    have hpk : p.1 = k := by
      have h7 := (habs2.2.2.2.2.2.1 p hporig).2
      rw [hpi] at h7
      rw [← h7, hkeyi]
    rw [hp1, List.map_cons, List.map_nil, hpk]

/-- C4 witness: the promotion property on the concrete three-entry cache
`lru3` with `get(2)` (node 1, a middle node) and `evict(2)`. -/
theorem c4_witness :
    ((((lru3.get 2).2.evict ((lru3.get 2).2.size - 1)).1.map (fun e => e.key)).Perm
      (([2, 1, 0].map (fun j => (nodeAt lru3 j).key)).erase 2)) ∧
    (((lru3.get 2).2.evict ((lru3.get 2).2.size - 1)).2.nodeMap.map Prod.fst = [2]) :=
  c4_get_promotes ℕ ℕ lru3 [2, 1, 0] 2 1 (by decide) (by decide)

/-- C5: on a valid cache already holding key `k` (at live node `i`),
`insert(k, v)` overwrites the map entry with a fresh node linked at the
newest end while the old node stays linked: the `forEach` traversal visits
the new pair first and still visits the old node's pair, but a key lookup
(`nodeMap.get`, and hence `get(k)`) reaches only the new node. -/
theorem c5_insert_duplicate (K V : Type) [DecidableEq K] [Inhabited K] [Inhabited V]
    (s : Lru K V) (ids : List Nat) (k : K) (i : Nat) (v : V)
    (habs : Abs s ids) (hmem : mapGet s.nodeMap k = some i) :
    (s.insert k v).forEach =
      (k, v) :: ids.map (fun j => ((nodeAt s j).key, (nodeAt s j).value)) ∧
    (k, (nodeAt s i).value) ∈ ids.map (fun j => ((nodeAt s j).key, (nodeAt s j).value)) ∧
    mapGet (s.insert k v).nodeMap k = some s.nodes.length ∧
    i ≠ s.nodes.length ∧
    ((s.insert k v).get k).1 = some v := by
  have himem : i ∈ ids := ((abs_mapGet habs).mp hmem).1
  have hkey : (nodeAt s i).key = k := ((abs_mapGet habs).mp hmem).2
  have hnd := habs.2.2.2.1
  have hb := habs.2.2.2.2.1
  have hilt : i < s.nodes.length := hb i himem
  obtain ⟨hchain, hnw2, -, hlen2, hkv2, hnid, hmap2⟩ := insert_spec k v habs
  have hmg : mapGet (s.insert k v).nodeMap k = some s.nodes.length := by
    rw [hmap2]
    exact mapGet_mapSet_self
  have hnidmem : s.nodes.length ∉ ids := fun hh => Nat.lt_irrefl _ (hb _ hh)
  have hforEach : (s.insert k v).forEach =
      (s.nodes.length :: ids).map
        (fun j => ((nodeAt (s.insert k v) j).key, (nodeAt (s.insert k v) j).value)) := by
    rw [Lru.forEach, hlen2]
    have hhead : (s.insert k v).newest = headOr (s.nodes.length :: ids) none := by
      rw [hnw2, headOr_cons]
    rw [hhead]
    refine traverseFrom_eq hchain ?_ ?_
    · intro j hj
      rw [hlen2]
      rcases List.mem_cons.mp hj with rfl | hj2
      · exact Nat.lt_succ_self _
      · exact Nat.lt_succ_of_lt (hb j hj2)
    · rw [List.length_cons]
      exact Nat.succ_le_succ (nodup_length_le hnd hb)
  refine ⟨?_, ?_, hmg, Nat.ne_of_lt hilt, ?_⟩
  · rw [hforEach, List.map_cons, hnid]
    congr 1
    refine List.map_congr_left ?_
    intro j hj
    rw [(hkv2 j (hb j hj)).1, (hkv2 j (hb j hj)).2]
  · refine List.mem_map.mpr ⟨i, himem, ?_⟩
    rw [hkey]
  · have hget : ((s.insert k v).get k).1 = some ((nodeAt (s.insert k v) s.nodes.length).value) := by
      simp only [Lru.get, hmg]
      rw [if_pos hnw2]
    rw [hget, hnid]

/-- C5 witness: inserting the already-present key 2 into the concrete
three-entry cache `lru3`. -/
theorem c5_witness :
    (lru3.insert 2 99).forEach =
      (2, 99) :: [2, 1, 0].map (fun j => ((nodeAt lru3 j).key, (nodeAt lru3 j).value)) ∧
    (2, (nodeAt lru3 1).value) ∈ [2, 1, 0].map (fun j => ((nodeAt lru3 j).key, (nodeAt lru3 j).value)) ∧
    mapGet (lru3.insert 2 99).nodeMap 2 = some lru3.nodes.length ∧
    1 ≠ lru3.nodes.length ∧
    ((lru3.insert 2 99).get 2).1 = some 99 :=
  c5_insert_duplicate ℕ ℕ lru3 [2, 1, 0] 2 1 99 (by decide) (by decide)

/-- C2 counterexample: in the claimed configuration (viewport 1000 by 800,
cells 320 by 240, 100 items) the materialization window at `scrollTop = 0`
is not the row range `[0, 7)` — the computed bottom row is 9 — the pass
materializes more than indices 0..20, and at `scrollTop = 2400` the window
bottom is 19, not 17. -/
theorem c2_counterexample :
    windowBottom (setGeometry gridC2) ≠ JsNum.fin 7 ∧
    ¬((computeBounds gridC2).elementCache.nodeMap.map Prod.fst =
        (List.range 21).map (fun n => ((n : ℕ) : ℚ))) ∧
    windowBottom (setGeometry { gridC2 with scrollTop := 2400 }) ≠ JsNum.fin 17 := by
  decide

/-- C2 (corrected): with viewport 1000 by 800, cellWidth 320, cellHeight 240
and itemCount 100, the geometry computation yields columns = 3,
visibleRows = 5 and totalRows = 34; the materialization window at
scrollTop = 0 is the row range [0, 9), and the pass materializes exactly
indices 0..26; at scrollTop = 2400 the window is the row range [5, 19).
(The window is padded by the full `visibleGridHeight` — itself already
`floor(height / cellHeight) + 2` — on each side, so the claimed [0, 7) /
indices 0..20 / [5, 17) are wrong.) -/
theorem c2_end_to_end :
    (setGeometry gridC2).visibleGridWidth = JsNum.fin 3 ∧
    (setGeometry gridC2).visibleGridHeight = JsNum.fin 5 ∧
    (setGeometry gridC2).gridRowCount = JsNum.fin 34 ∧
    windowTop (setGeometry gridC2) = JsNum.fin 0 ∧
    windowBottom (setGeometry gridC2) = JsNum.fin 9 ∧
    (computeBounds gridC2).elementCache.nodeMap.map Prod.fst =
      (List.range 27).map (fun n => ((n : ℕ) : ℚ)) ∧
    windowTop (setGeometry { gridC2 with scrollTop := 2400 }) = JsNum.fin 5 ∧
    windowBottom (setGeometry { gridC2 with scrollTop := 2400 }) = JsNum.fin 19 := by
  decide

/-- C6: for a geometry with positive `cellHeight`, a finite nonnegative
`visibleGridHeight` and a nonnegative scroll position, the materialization
window `[windowTop, windowBottom)` contains every strictly-visible row `r`
(those with `floor(scrollTop / cellHeight) ≤ r <
ceil((scrollTop + viewportHeight) / cellHeight)`) that lies in
`[0, gridRowCount)`. -/
theorem c6_window_coverage (st : GridState) (g : ℚ) (r : ℤ)
    (hvgh : st.visibleGridHeight = JsNum.fin g) (hg : 0 ≤ g)
    (hch : 0 < st.cellHeight) (hst : 0 ≤ st.scrollTop)
    (h1 : ⌊st.scrollTop / st.cellHeight⌋ ≤ r)
    (h2 : r < ⌈(st.scrollTop + st.viewportH) / st.cellHeight⌉)
    (h3 : 0 ≤ r)
    (h4 : JsNum.ltB (JsNum.fin (r : ℚ)) st.gridRowCount = true) :
    JsNum.leB (windowTop st) (JsNum.fin (r : ℚ)) = true ∧
    JsNum.ltB (JsNum.fin (r : ℚ)) (windowBottom st) = true := by
  have hch0 : st.cellHeight ≠ 0 := ne_of_gt hch
  constructor
  · rw [windowTop_eval hvgh hch0, jsLeB_fin_fin, decide_eq_true_eq]
    have hA : ((⌊st.scrollTop / st.cellHeight⌋ : ℤ) : ℚ) ≤ (r : ℚ) := by
      exact_mod_cast h1
    have h3q : (0 : ℚ) ≤ (r : ℚ) := by exact_mod_cast h3
    exact max_le h3q (by linarith)
  · rw [windowBottom_eval hvgh hch0]
    have hC : ((r : ℚ)) <
        ((⌈(st.scrollTop + st.viewportH) / st.cellHeight⌉ : ℤ) : ℚ) + g := by
      have h2q : ((r : ℚ)) <
          ((⌈(st.scrollTop + st.viewportH) / st.cellHeight⌉ : ℤ) : ℚ) := by
        exact_mod_cast h2
      linarith
    cases hgrc : st.gridRowCount with
    | nan => rw [hgrc] at h4; simp [JsNum.ltB] at h4
    | ninf => rw [hgrc] at h4; simp [JsNum.ltB] at h4
    | inf =>
      show JsNum.ltB (JsNum.fin (r : ℚ))
        (JsNum.fin (((⌈(st.scrollTop + st.viewportH) / st.cellHeight⌉ : ℤ) : ℚ) + g))
        = true
      rw [jsLtB_fin_fin, decide_eq_true_eq]
      exact hC
    | fin q =>
      rw [hgrc, jsLtB_fin_fin, decide_eq_true_eq] at h4
      rw [jsMin_fin_fin, jsLtB_fin_fin, decide_eq_true_eq]
      exact lt_min h4 hC

/-- C6 witness: the geometry of the end-to-end scenario (`cellHeight = 240`,
`visibleGridHeight = 5`) with the strictly-visible row `r = 1`. -/
theorem c6_witness :
    JsNum.leB (windowTop (setGeometry gridC2)) (JsNum.fin ((1 : ℤ) : ℚ)) = true ∧
    JsNum.ltB (JsNum.fin ((1 : ℤ) : ℚ)) (windowBottom (setGeometry gridC2)) = true :=
  c6_window_coverage (setGeometry gridC2) 5 1 (by decide) (by decide) (by decide)
    (by decide) (by decide) (by decide) (by decide) (by decide)

/-- C7: on a handle acquisition (`getCell`) with the cache in a valid state
and a finite nonnegative capacity bound: if the cache's size strictly
exceeds `maximumCachedElementCount`, exactly the one oldest cache entry is
evicted and its handle returned for reuse; otherwise a fresh handle is
manufactured (`nextHandle`) and appended to the host surface.  A
materialization pass never recomputes `maximumCachedElementCount`; the
geometry computation recomputes it as
min(itemCount, columns × (visibleRows × 6)). -/
theorem c7_acquisition (st : GridState) :
    (∀ (ids : List Nat) (m : ℚ), Abs st.elementCache ids →
      st.maximumCachedElementCount = JsNum.fin m → 0 ≤ m →
      JsNum.ltB st.maximumCachedElementCount
        (JsNum.fin (st.elementCache.size : ℚ)) = true →
      ∃ j, lastOr ids none = some j ∧
        getCell st = ((nodeAt st.elementCache j).value,
          { st with elementCache := (st.elementCache.evict 1).2 }) ∧
        (st.elementCache.evict 1).1 =
          [⟨(nodeAt st.elementCache j).key, (nodeAt st.elementCache j).value⟩] ∧
        (st.elementCache.evict 1).2.size = st.elementCache.size - 1) ∧
    (JsNum.ltB st.maximumCachedElementCount
        (JsNum.fin (st.elementCache.size : ℚ)) = false →
      getCell st = (st.nextHandle,
        { st with nextHandle := st.nextHandle + 1,
                  appended := st.appended ++ [st.nextHandle] })) ∧
    (∀ b : Bool, (virtualizeCells st b).maximumCachedElementCount =
      st.maximumCachedElementCount) ∧
    (computeBounds st).maximumCachedElementCount =
      JsNum.min (JsNum.fin st.virtualElementCount)
        (JsNum.mul (setGeometry st).visibleGridWidth
          (JsNum.mul (setGeometry st).visibleGridHeight (JsNum.fin 6))) := by
  refine ⟨?_, ?_, ?_, ?_⟩
  · intro ids m habs hmax hm0 hover
    have hsz : st.elementCache.nodeMap.length = ids.length :=
      habs.2.2.2.2.2.2.2.2
    have hlt : (0 : ℚ) < (st.elementCache.size : ℚ) := by
      rw [hmax, jsLtB_fin_fin, decide_eq_true_eq] at hover
      exact lt_of_le_of_lt hm0 hover
    have hpos : 0 < st.elementCache.size := by exact_mod_cast hlt
    have hlen : 0 < ids.length := by
      rw [Lru.size, hsz] at hpos
      exact hpos
    have hne : ids ≠ [] := List.length_pos.mp hlen
    rcases List.eq_nil_or_concat ids with rfl | ⟨F, j, hFb⟩
    · cases hne rfl
    · rw [List.concat_eq_append] at hFb
      have hj : lastOr ids none = some j := by
        rw [hFb]
        exact lastOr_concat F j none
      obtain ⟨e1, e2, -, -, -⟩ := evict_spec 1 st.elementCache ids habs
      have hone : (st.elementCache.evict 1).1 =
          [⟨(nodeAt st.elementCache j).key, (nodeAt st.elementCache j).value⟩] := by
        rw [e1, hFb, List.reverse_append]
        rfl
      have hpair : st.elementCache.evict 1 =
          ([⟨(nodeAt st.elementCache j).key, (nodeAt st.elementCache j).value⟩],
            (st.elementCache.evict 1).2) := by
        rw [← hone]
      refine ⟨j, hj, ?_, hone, ?_⟩
      · rw [getCell, if_pos hover, hpair]
      · simp only [Lru.size]
        rw [e2, hsz]
  · intro hno
    rw [getCell, if_neg (by rw [hno]; exact Bool.false_ne_true)]
  · intro b
    exact virtualizeCells_mcec st b
  · rw [computeBounds, virtualizeCells_mcec]
    rfl

/-- C7 witness: the over-capacity branch on `gridOver` (one cached element,
capacity bound 0) and the fresh-handle branch on `gridC2` (empty cache). -/
theorem c7_witness :
    (∃ j, lastOr [0] none = some j ∧
      getCell gridOver = ((nodeAt gridOver.elementCache j).value,
        { gridOver with elementCache := (gridOver.elementCache.evict 1).2 }) ∧
      (gridOver.elementCache.evict 1).1 =
        [⟨(nodeAt gridOver.elementCache j).key, (nodeAt gridOver.elementCache j).value⟩] ∧
      (gridOver.elementCache.evict 1).2.size = gridOver.elementCache.size - 1) ∧
    getCell gridC2 = (gridC2.nextHandle,
      { gridC2 with nextHandle := gridC2.nextHandle + 1,
                    appended := gridC2.appended ++ [gridC2.nextHandle] }) :=
  ⟨(c7_acquisition gridOver).1 [0] 0 (by decide) (by decide) (by decide) (by decide),
   (c7_acquisition gridC2).2.1 (by decide)⟩

/-- C8: assigning a null/undefined renderer reports the
invalid-configuration error synchronously and leaves the state — renderer,
cache contents and all handle observables — exactly as before the call; no
materialization pass runs. -/
theorem c8_null_renderer_rejected (st : GridState) :
    setItemRenderer st none = (st, some GridError.invalidConfiguration) := rfl

/-- C9: an item index at or beyond `itemCount` is a silent no-op of the
materialization pass: the loop body leaves the state untouched (no lookup
used, no handle acquired or assigned, no error), so a pass only ever adds
cache keys strictly below `itemCount`. -/
theorem c9_out_of_range (st : GridState) :
    (∀ idx : ℚ, st.virtualElementCount ≤ idx → cellStep st idx = st) ∧
    (∀ (b : Bool) (k : ℚ),
      k ∈ (virtualizeCells st b).elementCache.nodeMap.map Prod.fst →
      k ∈ st.elementCache.nodeMap.map Prod.fst ∨ k < st.virtualElementCount) := by
  constructor
  · intro idx h
    rw [cellStep, if_neg (not_lt.mpr h)]
  · intro b k hk
    exact virtualizeCells_keys hk

/-- C9 witness: index 7 on `gridOver` (`itemCount = 0`) is a no-op, and key
0, cached by the pass of the end-to-end scenario, is below its item count. -/
theorem c9_witness :
    cellStep gridOver 7 = gridOver ∧
    ((0 : ℚ) ∈ (setGeometry gridC2).elementCache.nodeMap.map Prod.fst ∨
      (0 : ℚ) < (setGeometry gridC2).virtualElementCount) :=
  ⟨(c9_out_of_range gridOver).1 7 (by decide),
   (c9_out_of_range (setGeometry gridC2)).2 false 0 (by decide)⟩

/-- C10: the geometry computation and the materialization pass run
unguarded on zero cell sizes (the defaults for absent or unparsable
attributes) and complete without materializing anything: the row loop has
no iterations, the pass is the identity, and `attributeChangedCallback`
changes only the attribute and geometry fields. -/
theorem c10_zero_cell_sizes (st : GridState) (hst : 0 ≤ st.scrollTop)
    (hh : 0 ≤ st.viewportH) (hw : 0 ≤ st.viewportW)
    (hzero : st.cellWidth = 0 ∨ st.cellHeight = 0) :
    loopIters (windowTop (setGeometry st)) (windowBottom (setGeometry st)) = [] ∧
    (∀ b : Bool, virtualizeCells (setGeometry st) b = setGeometry st) ∧
    computeBounds st = setGeometry st ∧
    attributeChangedCallback st GridAttr.cellWidth none =
      setGeometry { st with cellWidth := 0 } := by
  refine ⟨zeroCell_ys_nil st hst hh hw hzero, zeroCell_pass_id st hst hh hw hzero,
    ?_, ?_⟩
  · rw [computeBounds]
    exact zeroCell_pass_id st hst hh hw hzero true
  · show computeBounds { st with cellWidth := 0 } = _
    rw [computeBounds]
    exact zeroCell_pass_id { st with cellWidth := 0 } hst hh hw (Or.inl rfl) true

/-- C10 witness: the constructor state (all attributes 0). -/
theorem c10_witness :
    loopIters (windowTop (setGeometry gridInit)) (windowBottom (setGeometry gridInit))
      = [] ∧
    virtualizeCells (setGeometry gridInit) false = setGeometry gridInit ∧
    computeBounds gridInit = setGeometry gridInit ∧
    attributeChangedCallback gridInit GridAttr.cellWidth none =
      setGeometry { gridInit with cellWidth := 0 } := by
  obtain ⟨a, b, c, d⟩ :=
    c10_zero_cell_sizes gridInit (by decide) (by decide) (by decide) (by decide)
  exact ⟨a, b false, c, d⟩
